import Mathlib

/-!
# Verification of the visdial-challenge-starter training script

This file gives a shallow embedding of `train.py` from the
`visdial-challenge-starter-pytorch` repository and proves properties of it.

Tensors and module parameters are opaque values (`Nat` identifiers); the
framework-provided numeric computations (encoder forward, decoder forward,
cross-entropy, the Adam update, weight initialization, dataloader shuffling)
are supplied by an abstract `ModelOracle`, so every theorem below quantifies
over all possible behaviours of those components.  Learning rates and loss
values are modelled as exact rationals.  The script itself — argument
handling, seeding, checkpoint loading, the epoch/batch loop, learning-rate
decay, running-loss bookkeeping and checkpoint saving — is translated
line by line from the source into the function `run`, which also records an
event trace of the observable actions in program order.
-/

namespace VisDial

/-- Opaque tensor values (image features, token ids, scores, ...). -/
abbrev Tensor := Nat

/-- Opaque model-parameter snapshots (the weights of a module). -/
abbrev Params := Nat

/-- One collated batch produced by the dataloader: the keys of `batch`
used in the training loop of `train.py`. -/
structure Batch where
  img_feat : Tensor
  ques_fwd : Tensor
  hist : Tensor
  opt : Tensor
  ans_ind : Tensor
deriving Repr, DecidableEq

/-- The argparse namespace of `train.py`.  The explicitly declared optimization
and checkpointing flags are separate fields; `other` stands for the remaining
options contributed by `VisDialDataset.add_cmdline_args` and
`LateFusionEncoder.add_cmdline_args` (not used by the training script itself),
and the dataset-derived attributes (`num_data_points`, ..., `training`,
`iter_per_epoch`) set on the namespace by the script are fields as well. -/
structure Args where
  num_epochs : Nat
  batch_size : Nat
  lr : ℚ
  lr_decay_rate : ℚ
  min_lr : ℚ
  weight_init : String
  gpuid : Int
  load_path : String
  save_path : String
  save_step : Nat
  img_norm : Nat
  concat_history : Bool
  num_data_points : Nat
  vocab_size : Nat
  max_ques_count : Nat
  max_ques_len : Nat
  max_ans_len : Nat
  training : Bool
  iter_per_epoch : Nat
  other : Nat
deriving Repr, DecidableEq

/-- What `VisDialDataset(args, ['train'])` provides to the script: the five
attributes copied onto `model_args`, and the collated train-split batches
that the dataloader will draw from. -/
structure DatasetInfo where
  num_data_points : Nat
  vocab_size : Nat
  max_ques_count : Nat
  max_ques_len : Nat
  max_ans_len : Nat
  data : List Batch
deriving Repr, DecidableEq

/-- The `components` dictionary obtained by `torch.load(args.load_path)`:
serialized encoder and decoder modules (each carrying its parameters, and the
encoder carrying its `args`) and the separately saved learning rate. -/
structure LoadedCheckpoint where
  encoderParams : Params
  decoderParams : Params
  encoderArgs : Args
  lr : ℚ
deriving Repr, DecidableEq

/-- Which checkpoint file a `torch.save` targets. -/
inductive SaveFile where
  | epochFile (e : Nat)
  | finalFile
deriving Repr, DecidableEq

/-- The on-disk file name of a checkpoint, as formatted by `train.py`. -/
def SaveFile.name : SaveFile → String
  | .epochFile e => "model_epoch_" ++ toString e ++ ".pth"
  | .finalFile => "model_final.pth"

/-- The dictionary passed to `torch.save`: the periodic checkpoints carry an
`lr` entry, the final one does not, hence the `Option`. -/
structure SavedDict where
  encoder : Params
  decoder : Params
  lr : Option ℚ
deriving Repr, DecidableEq

/-- Observable actions of the script, in program order. -/
inductive Event where
  | manualSeed (seed : Nat)
  | cudaManualSeedAll (seed : Nat)
  | loadCheckpointFile (path : String)
  | loadDataset
  | buildEncoder
  | buildDecoder
  | zeroGrad
  | encoderCall (img ques hist : Tensor)
  | decoderCall (encOut opt : Tensor)
  | criterionCall (decOut ansInd : Tensor) (loss : ℚ)
  | backward (loss : ℚ)
  | optimizerStep
  | schedulerStep
  | save (dir : String) (file : SaveFile) (dict : SavedDict)
deriving Repr, DecidableEq

/-- The RNG state of the framework: a CPU generator and a CUDA generator. -/
structure RngState where
  cpu : Nat
  cuda : Nat
deriving Repr, DecidableEq

/-- The framework- and data-dependent computations the script delegates to.
All theorems quantify over an arbitrary oracle. -/
structure ModelOracle where
  loadData : Args → DatasetInfo
  encoderFwd : Params → Tensor → Tensor → Tensor → Tensor
  decoderFwd : Params → Tensor → Tensor → Tensor
  view : Tensor → Tensor
  crossEntropy : Tensor → Tensor → ℚ
  adamStep : Params → Params → ℚ → ℚ → Params × Params
  initEncoder : Nat → Args → Params
  initDecoder : Nat → Args → Params
  shuffle : Nat → List Batch → List Batch
  nextRng : Nat → Nat

/-- Mutable state of the training loop, together with recorded histories
(learning rate, running loss and batch loss after/of each iteration, and the
per-epoch shuffled batch lists). -/
structure TState where
  enc : Params
  dec : Params
  lr : ℚ
  running_loss : ℚ
  rng : Nat
  lrHist : List ℚ
  rlHist : List ℚ
  lossHist : List ℚ
  shuffles : List (List Batch)
deriving Repr, DecidableEq

/-- External inputs of one run: the parsed command line and the checkpoint
that `torch.load` would return (consulted only when `load_path` is set). -/
structure RunInput where
  cli : Args
  ckpt : LoadedCheckpoint
deriving Repr, DecidableEq

/-- The effect of `scheduler.step()` under the guard of line 168: the
learning rate is multiplied by `lr_decay_rate` exactly when it exceeds
`min_lr`. -/
def lrStep (a : Args) (lr : ℚ) : ℚ :=
  if lr > a.min_lr then lr * a.lr_decay_rate else lr

/-- The running-loss update of lines 163-166. -/
def rlUpdate (r l : ℚ) : ℚ :=
  if r > 0 then 0.95 * r + 0.05 * l else l

/-- The loss computed in the forward pass for batch `b` in state `s`:
`criterion(decoder(encoder(img_feat, ques_fwd, hist), opt), ans_ind.view(-1))`. -/
def batchLoss (o : ModelOracle) (s : TState) (b : Batch) : ℚ :=
  o.crossEntropy
    (o.decoderFwd s.dec (o.encoderFwd s.enc b.img_feat b.ques_fwd b.hist) b.opt)
    (o.view b.ans_ind)

/-- The events of one iteration of the inner loop (lines 145-169). -/
def iterEvents (o : ModelOracle) (a : Args) (s : TState) (b : Batch) : List Event :=
  let encOut := o.encoderFwd s.enc b.img_feat b.ques_fwd b.hist
  let decOut := o.decoderFwd s.dec encOut b.opt
  let loss := o.crossEntropy decOut (o.view b.ans_ind)
  [Event.zeroGrad,
   Event.encoderCall b.img_feat b.ques_fwd b.hist,
   Event.decoderCall encOut b.opt,
   Event.criterionCall decOut (o.view b.ans_ind) loss,
   Event.backward loss,
   Event.optimizerStep]
  ++ (if s.lr > a.min_lr then [Event.schedulerStep] else [])

/-- The state after one iteration of the inner loop: the Adam update of the
parameters, the running-loss update of lines 163-166, and the learning-rate
decay of lines 168-169. -/
def iterNext (o : ModelOracle) (a : Args) (s : TState) (b : Batch) : TState :=
  let loss := batchLoss o s b
  let p := o.adamStep s.enc s.dec s.lr loss
  let rl := rlUpdate s.running_loss loss
  let lr2 := lrStep a s.lr
  { s with
    enc := p.1
    dec := p.2
    lr := lr2
    running_loss := rl
    lrHist := s.lrHist ++ [lr2]
    rlHist := s.rlHist ++ [rl]
    lossHist := s.lossHist ++ [loss] }

/-- Runs the inner loop over a list of batches. -/
def runBatches (o : ModelOracle) (a : Args) : TState → List Batch → TState × List Event
  | s, [] => (s, [])
  | s, b :: bs =>
    let r := runBatches o a (iterNext o a s b) bs
    (r.1, iterEvents o a s b ++ r.2)

/-- The periodic checkpoint write of lines 185-190: performed when the epoch
number is divisible by `save_step`, and saving the current encoder, decoder
and learning rate. -/
def epochSaves (a : Args) (e : Nat) (s : TState) : List Event :=
  if e % a.save_step = 0 then
    [Event.save a.save_path (SaveFile.epochFile e) ⟨s.enc, s.dec, some s.lr⟩]
  else []

/-- One epoch: the dataloader reshuffles the data (consuming the CPU RNG),
the inner loop runs over the shuffled batches, and the periodic checkpoint
is written afterwards if due. -/
def runEpoch (o : ModelOracle) (a : Args) (data : List Batch) (s : TState) (e : Nat) :
    TState × List Event :=
  let batches := o.shuffle s.rng data
  let s0 := { s with rng := o.nextRng s.rng, shuffles := s.shuffles ++ [batches] }
  let r := runBatches o a s0 batches
  (r.1, r.2 ++ epochSaves a e r.1)

/-- Runs the outer loop over a list of epoch numbers. -/
def runEpochs (o : ModelOracle) (a : Args) (data : List Batch) :
    TState → List Nat → TState × List Event
  | s, [] => (s, [])
  | s, e :: es =>
    let r1 := runEpoch o a data s e
    let r2 := runEpochs o a data r1.1 es
    (r2.1, r1.2 ++ r2.2)

/-- Line 97: the five dataset attributes are copied onto `model_args`, and
line 99 sets `model_args.training = True`. -/
def applyDatasetKeys (ds : DatasetInfo) (a : Args) : Args :=
  { a with
    num_data_points := ds.num_data_points
    vocab_size := ds.vocab_size
    max_ques_count := ds.max_ques_count
    max_ques_len := ds.max_ques_len
    max_ans_len := ds.max_ans_len
    training := true }

/-- Result of the part of the script before the training loop. -/
structure SetupResult where
  args : Args
  modelArgs : Args
  ds : DatasetInfo
  enc0 : Params
  dec0 : Params
  rng : Nat
  trace : List Event
deriving Repr

/-- Lines 43-129 of `train.py`: timestamping of the default save path,
seeding, optional checkpoint loading with its argument overrides, the
`args`/`model_args` aliasing (they are the same object unless a checkpoint is
loaded), dataset construction, attribute transfer, and module construction. -/
def setup (o : ModelOracle) (inp : RunInput) (rng0 : RngState) (startTime : String) :
    SetupResult :=
  let a1 := if inp.cli.save_path = "checkpoints/" then
              { inp.cli with save_path := inp.cli.save_path ++ startTime }
            else inp.cli
  let rng1 : RngState := { rng0 with cpu := 1234 }
  let rng2 : RngState := if 0 ≤ a1.gpuid then { rng1 with cuda := 1234 } else rng1
  let t1 : List Event :=
    [Event.manualSeed 1234]
    ++ (if 0 ≤ a1.gpuid then [Event.cudaManualSeedAll 1234] else [])
  let isLoad := a1.load_path ≠ ""
  let t2 := t1 ++ (if isLoad then [Event.loadCheckpointFile a1.load_path] else [])
  let a2 := if isLoad then
              { a1 with
                lr := inp.ckpt.lr
                img_norm := inp.ckpt.encoderArgs.img_norm
                concat_history := true }
            else { a1 with concat_history := true }
  let ds := o.loadData a2
  let t3 := t2 ++ [Event.loadDataset]
  let ipe := (ds.num_data_points + a2.batch_size - 1) / a2.batch_size
  let aF := { (if isLoad then a2 else applyDatasetKeys ds a2) with iter_per_epoch := ipe }
  let maF := if isLoad then
               applyDatasetKeys ds
                 { inp.ckpt.encoderArgs with gpuid := a1.gpuid, batch_size := a1.batch_size }
             else aF
  if isLoad then
    { args := aF, modelArgs := maF, ds := ds,
      enc0 := inp.ckpt.encoderParams, dec0 := inp.ckpt.decoderParams,
      rng := rng2.cpu, trace := t3 }
  else
    let e0 := o.initEncoder rng2.cpu maF
    let r1 := o.nextRng rng2.cpu
    let d0 := o.initDecoder r1 maF
    { args := aF, modelArgs := maF, ds := ds, enc0 := e0, dec0 := d0,
      rng := o.nextRng r1, trace := t3 ++ [Event.buildEncoder, Event.buildDecoder] }

/-- Everything a run produces that the claims inspect. -/
structure RunResult where
  trace : List Event
  args : Args
  modelArgs : Args
  ds : DatasetInfo
  initialLr : ℚ
  enc0 : Params
  dec0 : Params
  final : TState
deriving Repr

/-- The training-loop state right after the optimizer and scheduler are
constructed (lines 121-141): fresh histories, `running_loss = 0.0`, and the
optimizer's initial learning rate `args.lr`. -/
def initState (se : SetupResult) : TState :=
  { enc := se.enc0, dec := se.dec0, lr := se.args.lr, running_loss := 0,
    rng := se.rng, lrHist := [], rlHist := [], lossHist := [], shuffles := [] }

/-- The training loop of lines 143-190, over epochs `1, ..., num_epochs`
(note that the bound is `model_args.num_epochs`). -/
def loopOf (o : ModelOracle) (se : SetupResult) : TState × List Event :=
  runEpochs o se.args se.ds.data (initState se) (List.range' 1 se.modelArgs.num_epochs)

/-- The final `torch.save` of lines 192-193: its dictionary holds the encoder
and decoder but no `lr` entry. -/
def finalSaveOf (se : SetupResult) (s : TState) : Event :=
  Event.save se.args.save_path SaveFile.finalFile ⟨s.enc, s.dec, none⟩

/-- The part of the script after setup. -/
def runFrom (o : ModelOracle) (se : SetupResult) : RunResult :=
  { trace := se.trace ++ (loopOf o se).2 ++ [finalSaveOf se (loopOf o se).1],
    args := se.args, modelArgs := se.modelArgs, ds := se.ds,
    initialLr := se.args.lr, enc0 := se.enc0, dec0 := se.dec0,
    final := (loopOf o se).1 }

/-- The whole script: setup, the training loop over epochs
`1, ..., model_args.num_epochs`, and the final `torch.save` of line 192,
whose dictionary has no `lr` entry. -/
def run (o : ModelOracle) (inp : RunInput) (rng0 : RngState) (startTime : String) :
    RunResult :=
  runFrom o (setup o inp rng0 startTime)

/-! ## Trace combinators -/

/-- Does the event write a checkpoint? -/
def Event.isSave : Event → Bool
  | .save _ _ _ => true
  | _ => false

/-- Is the event an `optimizer.step()`? -/
def Event.isOptimizerStep : Event → Bool
  | .optimizerStep => true
  | _ => false

/-- Is the event a `loss.backward()`? -/
def Event.isBackward : Event → Bool
  | .backward _ => true
  | _ => false

/-- Is the event an application of the criterion? -/
def Event.isCriterionCall : Event → Bool
  | .criterionCall _ _ _ => true
  | _ => false

/-- Is the event an application of the decoder? -/
def Event.isDecoderCall : Event → Bool
  | .decoderCall _ _ => true
  | _ => false

/-- Is the event an application of the encoder? -/
def Event.isEncoderCall : Event → Bool
  | .encoderCall _ _ _ => true
  | _ => false

/-- Is the event the construction of a fresh encoder or decoder module? -/
def Event.isBuild : Event → Bool
  | .buildEncoder => true
  | .buildDecoder => true
  | _ => false

/-- Does the event make the encoder/decoder modules available (fresh
construction, or deserialization of a checkpoint)? -/
def Event.isModelReady : Event → Bool
  | .buildEncoder => true
  | .buildDecoder => true
  | .loadCheckpointFile _ => true
  | _ => false

/-- Is the event the dataset construction? -/
def Event.isLoadDataset : Event → Bool
  | .loadDataset => true
  | _ => false

/-- Is the event the CPU `torch.manual_seed`? -/
def Event.isManualSeed : Event → Bool
  | .manualSeed _ => true
  | _ => false

/-- Is the event the CUDA `torch.cuda.manual_seed_all`? -/
def Event.isCudaSeed : Event → Bool
  | .cudaManualSeedAll _ => true
  | _ => false

/-- Number of events in a trace satisfying a predicate. -/
def cnt (f : Event → Bool) : List Event → Nat
  | [] => 0
  | e :: t => (if f e then 1 else 0) + cnt f t

/-- In every prefix of `t` there are at least as many `g`-events as
`f`-events: the `k`-th `f`-event can only occur after the `k`-th `g`-event. -/
def chainLe (f g : Event → Bool) (t : List Event) : Prop :=
  ∀ n, cnt f (t.take n) ≤ cnt g (t.take n)

/-- Every prefix of `t` containing a `g`-event contains an `f`-event: for
events occurring at most once this says every `f` comes before every `g`. -/
def precedes (f g : Event → Bool) (t : List Event) : Prop :=
  ∀ n, 0 < cnt g (t.take n) → 0 < cnt f (t.take n)

theorem cnt_append (f : Event → Bool) (a b : List Event) :
    cnt f (a ++ b) = cnt f a + cnt f b := by
  induction a with
  | nil => simp [cnt]
  | cons e t ih => simp [cnt, ih]; omega

theorem cnt_take_le (f : Event → Bool) (t : List Event) (n : Nat) :
    cnt f (t.take n) ≤ cnt f t := by
  induction t generalizing n with
  | nil => simp [cnt]
  | cons e t ih =>
    cases n with
    | zero => simp [cnt]
    | succ m =>
      simp only [List.take_succ_cons, cnt]
      exact Nat.add_le_add_left (ih m) _

theorem cnt_take_append (f : Event → Bool) (a b : List Event) (n : Nat) :
    cnt f ((a ++ b).take n) = cnt f (a.take n) + cnt f (b.take (n - a.length)) := by
  rw [List.take_append_eq_append_take, cnt_append]

theorem chainLe_append {f g : Event → Bool} {a b : List Event}
    (ha : chainLe f g a) (hb : chainLe f g b) : chainLe f g (a ++ b) := by
  intro n
  rw [cnt_take_append, cnt_take_append]
  exact Nat.add_le_add (ha n) (hb (n - a.length))

theorem chainLe_of_cnt_zero {f : Event → Bool} (g : Event → Bool) {t : List Event}
    (h : cnt f t = 0) : chainLe f g t := by
  intro n
  have := cnt_take_le f t n
  omega

theorem chainLe_of_bounded {f g : Event → Bool} {t : List Event}
    (h : ∀ n, n ≤ t.length → cnt f (t.take n) ≤ cnt g (t.take n)) :
    chainLe f g t := by
  intro n
  rcases Nat.le_total n t.length with hn | hn
  · exact h n hn
  · rw [List.take_of_length_le hn]
    have := h t.length le_rfl
    rwa [List.take_length] at this

theorem precedes_append_left {f g : Event → Bool} {a : List Event}
    (hf : 0 < cnt f a) (hg : cnt g a = 0) (b : List Event) :
    precedes f g (a ++ b) := by
  intro n hn
  rw [cnt_take_append] at hn ⊢
  have hga : cnt g (a.take n) = 0 := by
    have := cnt_take_le g a n
    omega
  have hb : 0 < cnt g (b.take (n - a.length)) := by omega
  have hna : a.length ≤ n := by
    by_contra hcon
    push_neg at hcon
    have : n - a.length = 0 := by omega
    rw [this] at hb
    simp [cnt] at hb
  rw [List.take_of_length_le hna]
  omega

/-! ## Lemmas about one iteration block -/

theorem cnt_iterEvents_save (o : ModelOracle) (a : Args) (s : TState) (b : Batch) :
    cnt Event.isSave (iterEvents o a s b) = 0 := by
  by_cases h : s.lr > a.min_lr <;> simp [iterEvents, h, cnt, Event.isSave]

theorem cnt_iterEvents_optStep (o : ModelOracle) (a : Args) (s : TState) (b : Batch) :
    cnt Event.isOptimizerStep (iterEvents o a s b) = 1 := by
  by_cases h : s.lr > a.min_lr <;> simp [iterEvents, h, cnt, Event.isOptimizerStep]

theorem cnt_iterEvents_backward (o : ModelOracle) (a : Args) (s : TState) (b : Batch) :
    cnt Event.isBackward (iterEvents o a s b) = 1 := by
  by_cases h : s.lr > a.min_lr <;> simp [iterEvents, h, cnt, Event.isBackward]

theorem cnt_iterEvents_criterion (o : ModelOracle) (a : Args) (s : TState) (b : Batch) :
    cnt Event.isCriterionCall (iterEvents o a s b) = 1 := by
  by_cases h : s.lr > a.min_lr <;> simp [iterEvents, h, cnt, Event.isCriterionCall]

theorem cnt_iterEvents_dec (o : ModelOracle) (a : Args) (s : TState) (b : Batch) :
    cnt Event.isDecoderCall (iterEvents o a s b) = 1 := by
  by_cases h : s.lr > a.min_lr <;> simp [iterEvents, h, cnt, Event.isDecoderCall]

theorem cnt_iterEvents_enc (o : ModelOracle) (a : Args) (s : TState) (b : Batch) :
    cnt Event.isEncoderCall (iterEvents o a s b) = 1 := by
  by_cases h : s.lr > a.min_lr <;> simp [iterEvents, h, cnt, Event.isEncoderCall]

theorem cnt_iterEvents_build (o : ModelOracle) (a : Args) (s : TState) (b : Batch) :
    cnt Event.isBuild (iterEvents o a s b) = 0 := by
  by_cases h : s.lr > a.min_lr <;> simp [iterEvents, h, cnt, Event.isBuild]

theorem cnt_iterEvents_loadDataset (o : ModelOracle) (a : Args) (s : TState) (b : Batch) :
    cnt Event.isLoadDataset (iterEvents o a s b) = 0 := by
  by_cases h : s.lr > a.min_lr <;> simp [iterEvents, h, cnt, Event.isLoadDataset]

theorem chainLe_iterEvents_dec_enc (o : ModelOracle) (a : Args) (s : TState) (b : Batch) :
    chainLe Event.isDecoderCall Event.isEncoderCall (iterEvents o a s b) := by
  apply chainLe_of_bounded
  intro n hn
  by_cases h : s.lr > a.min_lr <;>
    simp only [iterEvents, h, if_true, if_false, List.cons_append, List.nil_append,
      List.length_cons, List.length_nil] at hn ⊢ <;>
    interval_cases n <;>
    simp [cnt, Event.isDecoderCall, Event.isEncoderCall]

theorem chainLe_iterEvents_crit_dec (o : ModelOracle) (a : Args) (s : TState) (b : Batch) :
    chainLe Event.isCriterionCall Event.isDecoderCall (iterEvents o a s b) := by
  apply chainLe_of_bounded
  intro n hn
  by_cases h : s.lr > a.min_lr <;>
    simp only [iterEvents, h, if_true, if_false, List.cons_append, List.nil_append,
      List.length_cons, List.length_nil] at hn ⊢ <;>
    interval_cases n <;>
    simp [cnt, Event.isCriterionCall, Event.isDecoderCall]

theorem chainLe_iterEvents_back_crit (o : ModelOracle) (a : Args) (s : TState) (b : Batch) :
    chainLe Event.isBackward Event.isCriterionCall (iterEvents o a s b) := by
  apply chainLe_of_bounded
  intro n hn
  by_cases h : s.lr > a.min_lr <;>
    simp only [iterEvents, h, if_true, if_false, List.cons_append, List.nil_append,
      List.length_cons, List.length_nil] at hn ⊢ <;>
    interval_cases n <;>
    simp [cnt, Event.isBackward, Event.isCriterionCall]

theorem chainLe_iterEvents_step_back (o : ModelOracle) (a : Args) (s : TState) (b : Batch) :
    chainLe Event.isOptimizerStep Event.isBackward (iterEvents o a s b) := by
  apply chainLe_of_bounded
  intro n hn
  by_cases h : s.lr > a.min_lr <;>
    simp only [iterEvents, h, if_true, if_false, List.cons_append, List.nil_append,
      List.length_cons, List.length_nil] at hn ⊢ <;>
    interval_cases n <;>
    simp [cnt, Event.isOptimizerStep, Event.isBackward]

/-! ## Lemmas about the inner loop -/

theorem runBatches_cnt (o : ModelOracle) (a : Args) (f : Event → Bool) (k : Nat)
    (hblk : ∀ s b, cnt f (iterEvents o a s b) = k) :
    ∀ bs s, cnt f (runBatches o a s bs).2 = k * bs.length := by
  intro bs
  induction bs with
  | nil => intro s; simp [runBatches, cnt]
  | cons b bs ih =>
    intro s
    simp only [runBatches, cnt_append, hblk, ih, List.length_cons]
    ring

theorem runBatches_chainLe (o : ModelOracle) (a : Args) {f g : Event → Bool}
    (hblk : ∀ s b, chainLe f g (iterEvents o a s b)) :
    ∀ bs s, chainLe f g (runBatches o a s bs).2 := by
  intro bs
  induction bs with
  | nil => intro s n; simp [runBatches, cnt]
  | cons b bs ih =>
    intro s
    exact chainLe_append (hblk s b) (ih (iterNext o a s b))

theorem runBatches_rng (o : ModelOracle) (a : Args) :
    ∀ bs s, (runBatches o a s bs).1.rng = s.rng := by
  intro bs
  induction bs with
  | nil => intro s; rfl
  | cons b bs ih => intro s; simp [runBatches, ih, iterNext]

theorem runBatches_shuffles (o : ModelOracle) (a : Args) :
    ∀ bs s, (runBatches o a s bs).1.shuffles = s.shuffles := by
  intro bs
  induction bs with
  | nil => intro s; rfl
  | cons b bs ih => intro s; simp [runBatches, ih, iterNext]

/-- The learning rate after `n` iterations of the decay rule. -/
def lrSeq (a : Args) (lr : ℚ) : Nat → ℚ
  | 0 => lr
  | n + 1 => lrSeq a (lrStep a lr) n

/-- The learning rates recorded after each of `n` iterations. -/
def lrList (a : Args) (lr : ℚ) : Nat → List ℚ
  | 0 => []
  | n + 1 => lrStep a lr :: lrList a (lrStep a lr) n

/-- The running-loss values recorded along a list of batch losses. -/
def rlList (r : ℚ) : List ℚ → List ℚ
  | [] => []
  | l :: ls => rlUpdate r l :: rlList (rlUpdate r l) ls

/-- The running loss after consuming a list of batch losses. -/
def rlFold (r : ℚ) : List ℚ → ℚ
  | [] => r
  | l :: ls => rlFold (rlUpdate r l) ls

theorem runBatches_lr (o : ModelOracle) (a : Args) :
    ∀ bs s, (runBatches o a s bs).1.lr = lrSeq a s.lr bs.length := by
  intro bs
  induction bs with
  | nil => intro s; rfl
  | cons b bs ih =>
    intro s
    simp only [runBatches, ih, iterNext, List.length_cons, lrSeq]

theorem runBatches_lrHist (o : ModelOracle) (a : Args) :
    ∀ bs s, (runBatches o a s bs).1.lrHist = s.lrHist ++ lrList a s.lr bs.length := by
  intro bs
  induction bs with
  | nil => intro s; simp [runBatches, lrList]
  | cons b bs ih =>
    intro s
    simp only [runBatches, ih, iterNext, List.length_cons, lrList]
    simp

theorem runBatches_loss (o : ModelOracle) (a : Args) :
    ∀ bs s, ∃ ls : List ℚ,
      (runBatches o a s bs).1.lossHist = s.lossHist ++ ls ∧
      (runBatches o a s bs).1.rlHist = s.rlHist ++ rlList s.running_loss ls ∧
      (runBatches o a s bs).1.running_loss = rlFold s.running_loss ls := by
  intro bs
  induction bs with
  | nil => intro s; exact ⟨[], by simp [runBatches, rlList, rlFold]⟩
  | cons b bs ih =>
    intro s
    obtain ⟨ls, h1, h2, h3⟩ := ih (iterNext o a s b)
    refine ⟨batchLoss o s b :: ls, ?_, ?_, ?_⟩
    · show (runBatches o a (iterNext o a s b) bs).1.lossHist = _
      rw [h1]
      simp [iterNext]
    · show (runBatches o a (iterNext o a s b) bs).1.rlHist = _
      rw [h2]
      simp [iterNext, rlList]
    · show (runBatches o a (iterNext o a s b) bs).1.running_loss = _
      rw [h3]
      simp [iterNext, rlFold]

theorem runBatches_mem_enc (o : ModelOracle) (a : Args) :
    ∀ bs s, ∀ i q h : Tensor,
      Event.encoderCall i q h ∈ (runBatches o a s bs).2 →
      ∃ b ∈ bs, i = b.img_feat ∧ q = b.ques_fwd ∧ h = b.hist := by
  intro bs
  induction bs with
  | nil => intro s i q h hm; simp [runBatches] at hm
  | cons b bs ih =>
    intro s i q h hm
    simp only [runBatches, List.mem_append] at hm
    rcases hm with hm | hm
    · by_cases hlr : s.lr > a.min_lr <;>
        simp [iterEvents, hlr] at hm
      all_goals exact ⟨b, List.mem_cons_self b bs, hm.1, hm.2.1, hm.2.2⟩
    · obtain ⟨b', hb', hb2⟩ := ih (iterNext o a s b) i q h hm
      exact ⟨b', List.mem_cons_of_mem b hb', hb2⟩

theorem runBatches_mem_dec (o : ModelOracle) (a : Args) :
    ∀ bs s, ∀ x y : Tensor,
      Event.decoderCall x y ∈ (runBatches o a s bs).2 →
      ∃ b ∈ bs, ∃ p : Params,
        x = o.encoderFwd p b.img_feat b.ques_fwd b.hist ∧ y = b.opt := by
  intro bs
  induction bs with
  | nil => intro s x y hm; simp [runBatches] at hm
  | cons b bs ih =>
    intro s x y hm
    simp only [runBatches, List.mem_append] at hm
    rcases hm with hm | hm
    · by_cases hlr : s.lr > a.min_lr <;>
        simp [iterEvents, hlr] at hm
      all_goals exact ⟨b, List.mem_cons_self b bs, s.enc, hm.1, hm.2⟩
    · obtain ⟨b', hb', p, hb2⟩ := ih (iterNext o a s b) x y hm
      exact ⟨b', List.mem_cons_of_mem b hb', p, hb2⟩

theorem runBatches_mem_crit (o : ModelOracle) (a : Args) :
    ∀ bs s, ∀ (dOut aIdx : Tensor) (l : ℚ),
      Event.criterionCall dOut aIdx l ∈ (runBatches o a s bs).2 →
      ∃ b ∈ bs, ∃ p q : Params,
        dOut = o.decoderFwd q (o.encoderFwd p b.img_feat b.ques_fwd b.hist) b.opt ∧
        aIdx = o.view b.ans_ind ∧ l = o.crossEntropy dOut aIdx := by
  intro bs
  induction bs with
  | nil => intro s x y l hm; simp [runBatches] at hm
  | cons b bs ih =>
    intro s x y l hm
    simp only [runBatches, List.mem_append] at hm
    rcases hm with hm | hm
    · by_cases hlr : s.lr > a.min_lr <;>
        simp [iterEvents, hlr] at hm
      all_goals
        refine ⟨b, List.mem_cons_self b bs, s.enc, s.dec, hm.1, hm.2.1, ?_⟩
      all_goals rw [hm.1, hm.2.1, hm.2.2]
    · obtain ⟨b', hb', p, q, hb2⟩ := ih (iterNext o a s b) x y l hm
      exact ⟨b', List.mem_cons_of_mem b hb', p, q, hb2⟩

/-! ## Lemmas about the outer loop -/

theorem cnt_pos_of_mem {f : Event → Bool} {t : List Event} {ev : Event}
    (hm : ev ∈ t) (hf : f ev = true) : 0 < cnt f t := by
  induction t with
  | nil => simp at hm
  | cons e t ih =>
    rcases List.mem_cons.1 hm with h | h
    · subst h; simp [cnt, hf]
    · have := ih h
      simp [cnt]
      omega

theorem cnt_epochSaves (f : Event → Bool)
    (hf : ∀ d fl sd, f (Event.save d fl sd) = false) (a : Args) (e : Nat) (s : TState) :
    cnt f (epochSaves a e s) = 0 := by
  by_cases h : e % a.save_step = 0 <;> simp [epochSaves, h, cnt, hf]

theorem runEpochs_shuffles_mono (o : ModelOracle) (a : Args) (d : List Batch) :
    ∀ es s, ∃ tl, (runEpochs o a d s es).1.shuffles = s.shuffles ++ tl := by
  intro es
  induction es with
  | nil => intro s; exact ⟨[], by simp [runEpochs]⟩
  | cons e es ih =>
    intro s
    obtain ⟨tl, htl⟩ := ih (runEpoch o a d s e).1
    refine ⟨(o.shuffle s.rng d) :: tl, ?_⟩
    show (runEpochs o a d (runEpoch o a d s e).1 es).1.shuffles = _
    rw [htl]
    simp [runEpoch, runBatches_shuffles]

theorem runEpochs_cnt_one (o : ModelOracle) (a : Args) (d : List Batch) (f : Event → Bool)
    (hblk : ∀ s b, cnt f (iterEvents o a s b) = 1)
    (hsv : ∀ d' fl sd, f (Event.save d' fl sd) = false) :
    ∀ es s, cnt f (runEpochs o a d s es).2 + (s.shuffles.map List.length).sum
      = ((runEpochs o a d s es).1.shuffles.map List.length).sum := by
  intro es
  induction es with
  | nil => intro s; simp [runEpochs, cnt]
  | cons e es ih =>
    intro s
    have h1 : cnt f (runEpoch o a d s e).2
        = (o.shuffle s.rng d).length := by
      simp only [runEpoch, cnt_append, cnt_epochSaves f hsv]
      rw [runBatches_cnt o a f 1 hblk]
      omega
    have h2 := ih (runEpoch o a d s e).1
    have h3 : ((runEpoch o a d s e).1.shuffles.map List.length).sum
        = (s.shuffles.map List.length).sum + (o.shuffle s.rng d).length := by
      simp [runEpoch, runBatches_shuffles]
    show cnt f ((runEpoch o a d s e).2 ++ (runEpochs o a d (runEpoch o a d s e).1 es).2)
        + _ = _
    rw [cnt_append, h1]
    show _ = ((runEpochs o a d (runEpoch o a d s e).1 es).1.shuffles.map List.length).sum
    omega

theorem runEpochs_cnt_zero (o : ModelOracle) (a : Args) (d : List Batch) (f : Event → Bool)
    (hblk : ∀ s b, cnt f (iterEvents o a s b) = 0)
    (hsv : ∀ d' fl sd, f (Event.save d' fl sd) = false) :
    ∀ es s, cnt f (runEpochs o a d s es).2 = 0 := by
  intro es
  induction es with
  | nil => intro s; simp [runEpochs, cnt]
  | cons e es ih =>
    intro s
    show cnt f ((runEpoch o a d s e).2 ++ (runEpochs o a d (runEpoch o a d s e).1 es).2) = 0
    rw [cnt_append, ih]
    simp only [runEpoch, cnt_append, cnt_epochSaves f hsv]
    rw [runBatches_cnt o a f 0 hblk]
    omega

theorem runEpochs_chainLe (o : ModelOracle) (a : Args) (d : List Batch) {f g : Event → Bool}
    (hblk : ∀ s b, chainLe f g (iterEvents o a s b))
    (hsv : ∀ d' fl sd, f (Event.save d' fl sd) = false) :
    ∀ es s, chainLe f g (runEpochs o a d s es).2 := by
  intro es
  induction es with
  | nil => intro s n; simp [runEpochs, cnt]
  | cons e es ih =>
    intro s
    show chainLe f g ((runEpoch o a d s e).2 ++ (runEpochs o a d (runEpoch o a d s e).1 es).2)
    refine chainLe_append ?_ (ih _)
    simp only [runEpoch]
    exact chainLe_append (runBatches_chainLe o a hblk _ _)
      (chainLe_of_cnt_zero g (cnt_epochSaves f hsv a e _))

theorem runEpochs_save_events (o : ModelOracle) (a : Args) (d : List Batch) :
    ∀ es s, ∀ ev ∈ (runEpochs o a d s es).2, ev.isSave = true →
      ∃ e p1 p2 l, e ∈ es ∧ e % a.save_step = 0 ∧
        ev = Event.save a.save_path (SaveFile.epochFile e) ⟨p1, p2, some l⟩ := by
  intro es
  induction es with
  | nil => intro s ev hm; simp [runEpochs] at hm
  | cons e es ih =>
    intro s ev hm hf
    have hm' : ev ∈ (runEpoch o a d s e).2
        ∨ ev ∈ (runEpochs o a d (runEpoch o a d s e).1 es).2 := by
      exact List.mem_append.1 hm
    rcases hm' with hm' | hm'
    · simp only [runEpoch] at hm'
      rcases List.mem_append.1 hm' with hm2 | hm2
      · exfalso
        have := cnt_pos_of_mem hm2 hf
        rw [runBatches_cnt o a Event.isSave 0 (cnt_iterEvents_save o a)] at this
        omega
      · by_cases hdue : e % a.save_step = 0
        · simp [epochSaves, hdue] at hm2
          exact ⟨e, _, _, _, List.mem_cons_self e es, hdue, hm2⟩
        · simp [epochSaves, hdue] at hm2
    · obtain ⟨e', p1, p2, l, he', hdue, hev⟩ := ih _ ev hm' hf
      exact ⟨e', p1, p2, l, List.mem_cons_of_mem e he', hdue, hev⟩

theorem runEpochs_save_exists (o : ModelOracle) (a : Args) (d : List Batch) :
    ∀ es s e, e ∈ es → e % a.save_step = 0 →
      ∃ sd, Event.save a.save_path (SaveFile.epochFile e) sd ∈ (runEpochs o a d s es).2 := by
  intro es
  induction es with
  | nil => intro s e hm; simp at hm
  | cons e' es ih =>
    intro s e hm hdue
    rcases List.mem_cons.1 hm with h | h
    · subst h
      refine ⟨⟨(runEpoch o a d s e).1.enc, (runEpoch o a d s e).1.dec,
        some (runEpoch o a d s e).1.lr⟩, ?_⟩
      apply List.mem_append.2
      left
      show _ ∈ (runEpoch o a d s e).2
      have : Event.save a.save_path (SaveFile.epochFile e)
          ⟨(runEpoch o a d s e).1.enc, (runEpoch o a d s e).1.dec,
            some (runEpoch o a d s e).1.lr⟩ ∈ epochSaves a e (runEpoch o a d s e).1 := by
        simp [epochSaves, hdue]
      simp only [runEpoch] at this ⊢
      exact List.mem_append.2 (Or.inr this)
    · obtain ⟨sd, hsd⟩ := ih (runEpoch o a d s e').1 e h hdue
      exact ⟨sd, List.mem_append.2 (Or.inr hsd)⟩

theorem runEpochs_mem_enc (o : ModelOracle) (a : Args) (d : List Batch) :
    ∀ es s, ∀ i q h : Tensor,
      Event.encoderCall i q h ∈ (runEpochs o a d s es).2 →
      ∃ sh ∈ (runEpochs o a d s es).1.shuffles, ∃ b ∈ sh,
        i = b.img_feat ∧ q = b.ques_fwd ∧ h = b.hist := by
  intro es
  induction es with
  | nil => intro s i q h hm; simp [runEpochs] at hm
  | cons e es ih =>
    intro s i q h hm
    rcases List.mem_append.1 hm with hm' | hm'
    · simp only [runEpoch] at hm'
      rcases List.mem_append.1 hm' with hm2 | hm2
      · obtain ⟨b, hb, hb2⟩ := runBatches_mem_enc o a _ _ i q h hm2
        refine ⟨o.shuffle s.rng d, ?_, b, hb, hb2⟩
        obtain ⟨tl, htl⟩ := runEpochs_shuffles_mono o a d es (runEpoch o a d s e).1
        show _ ∈ (runEpochs o a d (runEpoch o a d s e).1 es).1.shuffles
        rw [htl]
        simp [runEpoch, runBatches_shuffles]
      · exfalso
        by_cases hdue : e % a.save_step = 0 <;> simp [epochSaves, hdue] at hm2
    · exact ih _ i q h hm'

theorem runEpochs_mem_dec (o : ModelOracle) (a : Args) (d : List Batch) :
    ∀ es s, ∀ x y : Tensor,
      Event.decoderCall x y ∈ (runEpochs o a d s es).2 →
      ∃ sh ∈ (runEpochs o a d s es).1.shuffles, ∃ b ∈ sh, ∃ p : Params,
        x = o.encoderFwd p b.img_feat b.ques_fwd b.hist ∧ y = b.opt := by
  intro es
  induction es with
  | nil => intro s x y hm; simp [runEpochs] at hm
  | cons e es ih =>
    intro s x y hm
    rcases List.mem_append.1 hm with hm' | hm'
    · simp only [runEpoch] at hm'
      rcases List.mem_append.1 hm' with hm2 | hm2
      · obtain ⟨b, hb, hb2⟩ := runBatches_mem_dec o a _ _ x y hm2
        refine ⟨o.shuffle s.rng d, ?_, b, hb, hb2⟩
        obtain ⟨tl, htl⟩ := runEpochs_shuffles_mono o a d es (runEpoch o a d s e).1
        show _ ∈ (runEpochs o a d (runEpoch o a d s e).1 es).1.shuffles
        rw [htl]
        simp [runEpoch, runBatches_shuffles]
      · exfalso
        by_cases hdue : e % a.save_step = 0 <;> simp [epochSaves, hdue] at hm2
    · exact ih _ x y hm'

theorem runEpochs_mem_crit (o : ModelOracle) (a : Args) (d : List Batch) :
    ∀ es s, ∀ (dOut aIdx : Tensor) (l : ℚ),
      Event.criterionCall dOut aIdx l ∈ (runEpochs o a d s es).2 →
      ∃ sh ∈ (runEpochs o a d s es).1.shuffles, ∃ b ∈ sh, ∃ p q : Params,
        dOut = o.decoderFwd q (o.encoderFwd p b.img_feat b.ques_fwd b.hist) b.opt ∧
        aIdx = o.view b.ans_ind ∧ l = o.crossEntropy dOut aIdx := by
  intro es
  induction es with
  | nil => intro s x y l hm; simp [runEpochs] at hm
  | cons e es ih =>
    intro s x y l hm
    rcases List.mem_append.1 hm with hm' | hm'
    · simp only [runEpoch] at hm'
      rcases List.mem_append.1 hm' with hm2 | hm2
      · obtain ⟨b, hb, hb2⟩ := runBatches_mem_crit o a _ _ x y l hm2
        refine ⟨o.shuffle s.rng d, ?_, b, hb, hb2⟩
        obtain ⟨tl, htl⟩ := runEpochs_shuffles_mono o a d es (runEpoch o a d s e).1
        show _ ∈ (runEpochs o a d (runEpoch o a d s e).1 es).1.shuffles
        rw [htl]
        simp [runEpoch, runBatches_shuffles]
      · exfalso
        by_cases hdue : e % a.save_step = 0 <;> simp [epochSaves, hdue] at hm2
    · exact ih _ x y l hm'

theorem lrSeq_add (a : Args) : ∀ m n lr, lrSeq a lr (m + n) = lrSeq a (lrSeq a lr m) n := by
  intro m
  induction m with
  | zero => intro n lr; rw [Nat.zero_add]; rfl
  | succ m ih =>
    intro n lr
    have : m + 1 + n = (m + n) + 1 := by omega
    rw [this]
    show lrSeq a (lrStep a lr) (m + n) = _
    rw [ih]
    rfl

theorem lrList_add (a : Args) :
    ∀ m n lr, lrList a lr (m + n) = lrList a lr m ++ lrList a (lrSeq a lr m) n := by
  intro m
  induction m with
  | zero => intro n lr; rw [Nat.zero_add]; rfl
  | succ m ih =>
    intro n lr
    have : m + 1 + n = (m + n) + 1 := by omega
    rw [this]
    show lrStep a lr :: lrList a (lrStep a lr) (m + n) = _
    rw [ih]
    rfl

theorem rlFold_append : ∀ (ls1 ls2 : List ℚ) (r : ℚ),
    rlFold r (ls1 ++ ls2) = rlFold (rlFold r ls1) ls2 := by
  intro ls1
  induction ls1 with
  | nil => intro ls2 r; rfl
  | cons l ls ih => intro ls2 r; exact ih ls2 (rlUpdate r l)

theorem rlList_append : ∀ (ls1 ls2 : List ℚ) (r : ℚ),
    rlList r (ls1 ++ ls2) = rlList r ls1 ++ rlList (rlFold r ls1) ls2 := by
  intro ls1
  induction ls1 with
  | nil => intro ls2 r; rfl
  | cons l ls ih =>
    intro ls2 r
    show rlUpdate r l :: rlList (rlUpdate r l) (ls ++ ls2) = _
    rw [ih]
    rfl

theorem runEpochs_lr (o : ModelOracle) (a : Args) (d : List Batch) :
    ∀ es s, ∃ n, (runEpochs o a d s es).1.lr = lrSeq a s.lr n ∧
      (runEpochs o a d s es).1.lrHist = s.lrHist ++ lrList a s.lr n := by
  intro es
  induction es with
  | nil => intro s; exact ⟨0, rfl, by simp [runEpochs, lrList]⟩
  | cons e es ih =>
    intro s
    obtain ⟨m, hm1, hm2⟩ := ih (runEpoch o a d s e).1
    have he1 : (runEpoch o a d s e).1.lr = lrSeq a s.lr (o.shuffle s.rng d).length := by
      simp [runEpoch, runBatches_lr]
    have he2 : (runEpoch o a d s e).1.lrHist
        = s.lrHist ++ lrList a s.lr (o.shuffle s.rng d).length := by
      simp [runEpoch, runBatches_lrHist]
    refine ⟨(o.shuffle s.rng d).length + m, ?_, ?_⟩
    · show (runEpochs o a d (runEpoch o a d s e).1 es).1.lr = _
      rw [hm1, he1, lrSeq_add]
    · show (runEpochs o a d (runEpoch o a d s e).1 es).1.lrHist = _
      rw [hm2, he2, he1, lrList_add]
      simp

theorem runEpochs_loss (o : ModelOracle) (a : Args) (d : List Batch) :
    ∀ es s, ∃ ls : List ℚ,
      (runEpochs o a d s es).1.lossHist = s.lossHist ++ ls ∧
      (runEpochs o a d s es).1.rlHist = s.rlHist ++ rlList s.running_loss ls ∧
      (runEpochs o a d s es).1.running_loss = rlFold s.running_loss ls := by
  intro es
  induction es with
  | nil => intro s; exact ⟨[], by simp [runEpochs, rlList, rlFold]⟩
  | cons e es ih =>
    intro s
    obtain ⟨ls2, h1, h2, h3⟩ := ih (runEpoch o a d s e).1
    obtain ⟨ls1, g1, g2, g3⟩ := runBatches_loss o a (o.shuffle s.rng d)
      { s with rng := o.nextRng s.rng, shuffles := s.shuffles ++ [o.shuffle s.rng d] }
    have e1 : (runEpoch o a d s e).1.lossHist = s.lossHist ++ ls1 := g1
    have e2 : (runEpoch o a d s e).1.rlHist = s.rlHist ++ rlList s.running_loss ls1 := g2
    have e3 : (runEpoch o a d s e).1.running_loss = rlFold s.running_loss ls1 := g3
    refine ⟨ls1 ++ ls2, ?_, ?_, ?_⟩
    · show (runEpochs o a d (runEpoch o a d s e).1 es).1.lossHist = _
      rw [h1, e1]
      simp
    · show (runEpochs o a d (runEpoch o a d s e).1 es).1.rlHist = _
      rw [h2, e2, e3, rlList_append]
      simp
    · show (runEpochs o a d (runEpoch o a d s e).1 es).1.running_loss = _
      rw [h3, e3, rlFold_append]

theorem runEpochs_decomp (o : ModelOracle) (a : Args) (d : List Batch) :
    ∀ es s, ∃ blocks : List (List Event),
      (runEpochs o a d s es).2 = blocks.flatten ∧
      List.Forall₂ (fun blk sh => ∃ iters sv, blk = iters ++ sv ∧
          cnt Event.isSave iters = 0 ∧
          cnt Event.isOptimizerStep iters = sh.length ∧
          (∀ ev ∈ sv, ev.isSave = true))
        blocks ((runEpochs o a d s es).1.shuffles.drop s.shuffles.length) := by
  intro es
  induction es with
  | nil =>
    intro s
    refine ⟨[], by simp [runEpochs], ?_⟩
    show List.Forall₂ _ [] (s.shuffles.drop s.shuffles.length)
    rw [List.drop_length]
    exact List.Forall₂.nil
  | cons e es ih =>
    intro s
    obtain ⟨blocks, hb1, hb2⟩ := ih (runEpoch o a d s e).1
    obtain ⟨tl, htl⟩ := runEpochs_shuffles_mono o a d es (runEpoch o a d s e).1
    have hsh : (runEpoch o a d s e).1.shuffles = s.shuffles ++ [o.shuffle s.rng d] := by
      simp [runEpoch, runBatches_shuffles]
    refine ⟨(runEpoch o a d s e).2 :: blocks, ?_, ?_⟩
    · show (runEpoch o a d s e).2 ++ (runEpochs o a d (runEpoch o a d s e).1 es).2 = _
      rw [hb1]
      rfl
    · have hdrop1 : ((runEpochs o a d (runEpoch o a d s e).1 es).1.shuffles.drop
          s.shuffles.length) = o.shuffle s.rng d :: tl := by
        rw [htl, hsh, List.append_assoc, List.drop_left]
        rfl
      have hdrop2 : ((runEpochs o a d (runEpoch o a d s e).1 es).1.shuffles.drop
          (runEpoch o a d s e).1.shuffles.length) = tl := by
        rw [htl, List.drop_left]
      show List.Forall₂ _ _ ((runEpochs o a d (runEpoch o a d s e).1 es).1.shuffles.drop
        s.shuffles.length)
      rw [hdrop1]
      rw [hdrop2] at hb2
      refine List.Forall₂.cons ?_ hb2
      refine ⟨(runBatches o a { s with rng := o.nextRng s.rng, shuffles := s.shuffles ++ [o.shuffle s.rng d] } (o.shuffle s.rng d)).2, epochSaves a e (runBatches o a { s with rng := o.nextRng s.rng, shuffles := s.shuffles ++ [o.shuffle s.rng d] } (o.shuffle s.rng d)).1, rfl, ?_, ?_, ?_⟩
      · rw [runBatches_cnt o a Event.isSave 0 (cnt_iterEvents_save o a)]
        omega
      · rw [runBatches_cnt o a Event.isOptimizerStep 1 (cnt_iterEvents_optStep o a)]
        omega
      · intro ev hev
        by_cases hdue : e % a.save_step = 0 <;> simp [epochSaves, hdue] at hev
        rw [hev]
        rfl

/-! ## Lemmas about setup -/

theorem setup_trace (o : ModelOracle) (inp : RunInput) (g : RngState) (st : String) :
    (setup o inp g st).trace =
      ([Event.manualSeed 1234]
        ++ (if 0 ≤ inp.cli.gpuid then [Event.cudaManualSeedAll 1234] else [])
        ++ (if inp.cli.load_path ≠ "" then
              [Event.loadCheckpointFile inp.cli.load_path] else []))
      ++ ([Event.loadDataset]
        ++ (if inp.cli.load_path ≠ "" then []
            else [Event.buildEncoder, Event.buildDecoder])) := by
  by_cases hsp : inp.cli.save_path = "checkpoints/" <;>
    by_cases hl : inp.cli.load_path = "" <;>
    by_cases hg : 0 ≤ inp.cli.gpuid <;>
    simp [setup, hsp, hl, hg]

theorem cnt_setup (o : ModelOracle) (inp : RunInput) (g : RngState) (st : String)
    (f : Event → Bool)
    (h1 : ∀ n, f (Event.manualSeed n) = false)
    (h2 : ∀ n, f (Event.cudaManualSeedAll n) = false)
    (h3 : ∀ p, f (Event.loadCheckpointFile p) = false)
    (h4 : f Event.loadDataset = false)
    (h5 : f Event.buildEncoder = false)
    (h6 : f Event.buildDecoder = false) :
    cnt f (setup o inp g st).trace = 0 := by
  rw [setup_trace]
  by_cases hl : inp.cli.load_path = "" <;> by_cases hg : 0 ≤ inp.cli.gpuid <;>
    simp [cnt_append, cnt, h1, h2, h3, h4, h5, h6, hl, hg]

theorem setup_args_indep_rng (o : ModelOracle) (inp : RunInput) (g g' : RngState)
    (st : String) : setup o inp g st = setup o inp g' st := by
  by_cases hsp : inp.cli.save_path = "checkpoints/" <;>
    by_cases hl : inp.cli.load_path = "" <;>
    by_cases hg : 0 ≤ inp.cli.gpuid <;>
    simp [setup, hsp, hl, hg]

theorem setup_args_save_step (o : ModelOracle) (inp : RunInput) (g : RngState)
    (st : String) : (setup o inp g st).args.save_step = inp.cli.save_step := by
  by_cases hsp : inp.cli.save_path = "checkpoints/" <;>
    by_cases hl : inp.cli.load_path = "" <;>
    simp [setup, applyDatasetKeys, hsp, hl]

theorem setup_args_min_lr (o : ModelOracle) (inp : RunInput) (g : RngState)
    (st : String) : (setup o inp g st).args.min_lr = inp.cli.min_lr := by
  by_cases hsp : inp.cli.save_path = "checkpoints/" <;>
    by_cases hl : inp.cli.load_path = "" <;>
    simp [setup, applyDatasetKeys, hsp, hl]

theorem setup_args_lr_decay_rate (o : ModelOracle) (inp : RunInput) (g : RngState)
    (st : String) : (setup o inp g st).args.lr_decay_rate = inp.cli.lr_decay_rate := by
  by_cases hsp : inp.cli.save_path = "checkpoints/" <;>
    by_cases hl : inp.cli.load_path = "" <;>
    simp [setup, applyDatasetKeys, hsp, hl]

theorem setup_args_lr_load (o : ModelOracle) (inp : RunInput) (g : RngState)
    (st : String) (hl : inp.cli.load_path ≠ "") :
    (setup o inp g st).args.lr = inp.ckpt.lr := by
  by_cases hsp : inp.cli.save_path = "checkpoints/" <;>
    simp [setup, applyDatasetKeys, hsp, hl]

theorem setup_modelArgs_load (o : ModelOracle) (inp : RunInput) (g : RngState)
    (st : String) (hl : inp.cli.load_path ≠ "") :
    (setup o inp g st).modelArgs =
      applyDatasetKeys (setup o inp g st).ds
        { inp.ckpt.encoderArgs with
          gpuid := inp.cli.gpuid
          batch_size := inp.cli.batch_size } := by
  by_cases hsp : inp.cli.save_path = "checkpoints/" <;>
    simp [setup, hsp, hl]

/-! ## Pointwise lemmas about the recorded trajectories -/

theorem lrList_length (a : Args) : ∀ n lr, (lrList a lr n).length = n := by
  intro n
  induction n with
  | zero => intro lr; rfl
  | succ n ih => intro lr; simp [lrList, ih]

theorem lrSeq_succ (a : Args) (lr : ℚ) (n : Nat) :
    lrSeq a lr (n + 1) = lrStep a (lrSeq a lr n) := by
  rw [lrSeq_add a n 1 lr]
  rfl

theorem lrTraj_get (a : Args) :
    ∀ n lr0 i (h : i < (lr0 :: lrList a lr0 n).length),
      (lr0 :: lrList a lr0 n).get ⟨i, h⟩ = lrSeq a lr0 i := by
  intro n
  induction n with
  | zero =>
    intro lr0 i h
    simp [lrList] at h
    subst h
    rfl
  | succ n ih =>
    intro lr0 i h
    cases i with
    | zero => rfl
    | succ i =>
      show (lrList a lr0 (n + 1)).get ⟨i, _⟩ = _
      show (lrStep a lr0 :: lrList a (lrStep a lr0) n).get ⟨i, _⟩ = _
      rw [ih (lrStep a lr0) i]
      rfl

theorem rlList_length : ∀ (ls : List ℚ) (r : ℚ), (rlList r ls).length = ls.length := by
  intro ls
  induction ls with
  | nil => intro r; rfl
  | cons l ls ih => intro r; simp [rlList, ih]

theorem rlTraj_get :
    ∀ (ls : List ℚ) (r : ℚ) i (h : i < (r :: rlList r ls).length),
      (r :: rlList r ls).get ⟨i, h⟩ = rlFold r (ls.take i) := by
  intro ls
  induction ls with
  | nil =>
    intro r i h
    simp [rlList] at h
    subst h
    rfl
  | cons l ls ih =>
    intro r i h
    cases i with
    | zero => rfl
    | succ i =>
      show (rlUpdate r l :: rlList (rlUpdate r l) ls).get ⟨i, _⟩ = _
      have hi : i < (rlUpdate r l :: rlList (rlUpdate r l) ls).length := by
        simpa [rlList_length] using Nat.lt_of_succ_lt_succ (by simpa [rlList_length] using h)
      rw [ih (rlUpdate r l) i hi]
      rfl

theorem rlList_get :
    ∀ (ls : List ℚ) (r : ℚ) i (h : i < (rlList r ls).length) (h2 : i < ls.length),
      (rlList r ls).get ⟨i, h⟩ = rlUpdate (rlFold r (ls.take i)) (ls.get ⟨i, h2⟩) := by
  intro ls
  induction ls with
  | nil => intro r i h h2; simp at h2
  | cons l ls ih =>
    intro r i h h2
    cases i with
    | zero => rfl
    | succ i =>
      show (rlList (rlUpdate r l) ls).get ⟨i, _⟩ = _
      have hi2 : i < ls.length := Nat.lt_of_succ_lt_succ h2
      have hi : i < (rlList (rlUpdate r l) ls).length := by
        simpa [rlList_length] using hi2
      rw [ih (rlUpdate r l) i hi hi2]
      rfl

/-! ## Arithmetic facts about the learning-rate decay rule -/

theorem lrStep_le (a : Args) (lr : ℚ) (h0 : 0 ≤ lr) (hd1 : a.lr_decay_rate ≤ 1) :
    lrStep a lr ≤ lr := by
  unfold lrStep
  split
  · exact mul_le_of_le_one_right h0 hd1
  · exact le_refl lr

theorem lrStep_nonneg (a : Args) (lr : ℚ) (h0 : 0 ≤ lr) (hd : 0 ≤ a.lr_decay_rate) :
    0 ≤ lrStep a lr := by
  unfold lrStep
  split
  · exact mul_nonneg h0 hd
  · exact h0

theorem lrSeq_nonneg (a : Args) (hd : 0 ≤ a.lr_decay_rate) :
    ∀ n lr, 0 ≤ lr → 0 ≤ lrSeq a lr n := by
  intro n
  induction n with
  | zero => intro lr h0; exact h0
  | succ n ih => intro lr h0; exact ih (lrStep a lr) (lrStep_nonneg a lr h0 hd)

theorem lrStep_lb (a : Args) (lr : ℚ) (hd : 0 < a.lr_decay_rate)
    (hlb : a.min_lr * a.lr_decay_rate ≤ lr) : a.min_lr * a.lr_decay_rate ≤ lrStep a lr := by
  unfold lrStep
  split
  · rename_i h
    calc a.min_lr * a.lr_decay_rate ≤ lr * a.lr_decay_rate :=
      mul_le_mul_of_nonneg_right (le_of_lt h) (le_of_lt hd)
    _ = lr * a.lr_decay_rate := rfl
  · exact hlb

theorem lrSeq_lb (a : Args) (hd : 0 < a.lr_decay_rate) :
    ∀ n lr, a.min_lr * a.lr_decay_rate ≤ lr →
      a.min_lr * a.lr_decay_rate ≤ lrSeq a lr n := by
  intro n
  induction n with
  | zero => intro lr h; exact h
  | succ n ih => intro lr h; exact ih (lrStep a lr) (lrStep_lb a lr hd h)

theorem lrStep_const (a : Args) (lr : ℚ) (h : lr ≤ a.min_lr) : lrStep a lr = lr := by
  unfold lrStep
  rw [if_neg (not_lt.2 h)]

theorem lrSeq_const (a : Args) : ∀ n lr, lr ≤ a.min_lr → lrSeq a lr n = lr := by
  intro n
  induction n with
  | zero => intro lr _; rfl
  | succ n ih =>
    intro lr h
    show lrSeq a (lrStep a lr) n = lr
    rw [lrStep_const a lr h]
    exact ih lr h

/-! ## Run-level corollaries used by several claims -/

theorem run_lrHist_ex (o : ModelOracle) (inp : RunInput) (g : RngState) (st : String) :
    ∃ n, (run o inp g st).final.lrHist
      = lrList (run o inp g st).args (run o inp g st).initialLr n := by
  obtain ⟨n, _, h2⟩ := runEpochs_lr o (setup o inp g st).args (setup o inp g st).ds.data
    (List.range' 1 (setup o inp g st).modelArgs.num_epochs) (initState (setup o inp g st))
  exact ⟨n, by simpa [run, runFrom, loopOf, initState] using h2⟩

theorem run_rlHist (o : ModelOracle) (inp : RunInput) (g : RngState) (st : String) :
    (run o inp g st).final.rlHist = rlList 0 (run o inp g st).final.lossHist := by
  obtain ⟨ls, h1, h2, _⟩ := runEpochs_loss o (setup o inp g st).args (setup o inp g st).ds.data
    (List.range' 1 (setup o inp g st).modelArgs.num_epochs) (initState (setup o inp g st))
  have hls : (run o inp g st).final.lossHist = ls := by
    simpa [run, runFrom, loopOf, initState] using h1
  rw [hls]
  simpa [run, runFrom, loopOf, initState] using h2

/-! ## Run-level lemmas about checkpoint events -/

theorem cnt_setup_save (o : ModelOracle) (inp : RunInput) (g : RngState) (st : String) :
    cnt Event.isSave (setup o inp g st).trace = 0 := by
  apply cnt_setup <;> intros <;> rfl

theorem run_save_events (o : ModelOracle) (inp : RunInput) (g : RngState) (st : String) :
    ∀ d fl sd, Event.save d fl sd ∈ (run o inp g st).trace →
      (fl = SaveFile.finalFile ∧ d = (run o inp g st).args.save_path ∧
        sd = ⟨(run o inp g st).final.enc, (run o inp g st).final.dec, none⟩)
      ∨ (∃ e l, fl = SaveFile.epochFile e ∧ d = (run o inp g st).args.save_path ∧
          e ∈ List.range' 1 (run o inp g st).modelArgs.num_epochs ∧
          e % inp.cli.save_step = 0 ∧ sd.lr = some l) := by
  intro d fl sd hm
  have hm' : Event.save d fl sd ∈ (setup o inp g st).trace
      ∨ Event.save d fl sd ∈ (loopOf o (setup o inp g st)).2
      ∨ Event.save d fl sd = finalSaveOf (setup o inp g st) (loopOf o (setup o inp g st)).1 := by
    have : (run o inp g st).trace = (setup o inp g st).trace
        ++ (loopOf o (setup o inp g st)).2
        ++ [finalSaveOf (setup o inp g st) (loopOf o (setup o inp g st)).1] := rfl
    rw [this] at hm
    rcases List.mem_append.1 hm with h | h
    · rcases List.mem_append.1 h with h' | h'
      · exact Or.inl h'
      · exact Or.inr (Or.inl h')
    · exact Or.inr (Or.inr (List.mem_singleton.1 h))
  rcases hm' with h | h | h
  · exfalso
    have := cnt_pos_of_mem h (show Event.isSave (Event.save d fl sd) = true from rfl)
    rw [cnt_setup_save] at this
    omega
  · obtain ⟨e, p1, p2, l, he, hdue, hev⟩ := runEpochs_save_events o
      (setup o inp g st).args (setup o inp g st).ds.data _ _ _ h rfl
    right
    obtain ⟨hd, hfl, hsd⟩ := Event.save.inj hev
    refine ⟨e, l, hfl, hd, he, ?_, ?_⟩
    · rwa [setup_args_save_step] at hdue
    · rw [hsd]
  · left
    obtain ⟨hd, hfl, hsd⟩ := Event.save.inj h
    exact ⟨hfl, hd, hsd⟩

theorem run_epoch_save_exists (o : ModelOracle) (inp : RunInput) (g : RngState)
    (st : String) (e : Nat) (he : e ∈ List.range' 1 (run o inp g st).modelArgs.num_epochs)
    (hdue : e % inp.cli.save_step = 0) :
    ∃ sd, Event.save (run o inp g st).args.save_path (SaveFile.epochFile e) sd
      ∈ (run o inp g st).trace := by
  have hdue' : e % (setup o inp g st).args.save_step = 0 := by
    rwa [setup_args_save_step]
  obtain ⟨sd, hsd⟩ := runEpochs_save_exists o (setup o inp g st).args
    (setup o inp g st).ds.data (List.range' 1 (setup o inp g st).modelArgs.num_epochs)
    (initState (setup o inp g st)) e he hdue'
  refine ⟨sd, ?_⟩
  show _ ∈ (setup o inp g st).trace ++ (loopOf o (setup o inp g st)).2
    ++ [finalSaveOf (setup o inp g st) (loopOf o (setup o inp g st)).1]
  exact List.mem_append.2 (Or.inl (List.mem_append.2 (Or.inr hsd)))

/-- C3: for every epoch number `e` from 1 to `num_epochs`, a periodic
checkpoint file named `model_epoch_{e}.pth` is written if and only if `e` is
divisible by `save_step`, and after the final epoch a file `model_final.pth`
is always written regardless of `save_step`.  (The formatted file names are
given by `SaveFile.name`.) -/
theorem c3_checkpoint_iff_save_step (o : ModelOracle) (inp : RunInput) (g : RngState)
    (st : String) (hs : 0 < inp.cli.save_step) :
    (∀ e, 1 ≤ e → e ≤ (run o inp g st).modelArgs.num_epochs →
      ((∃ d sd, Event.save d (SaveFile.epochFile e) sd ∈ (run o inp g st).trace)
        ↔ inp.cli.save_step ∣ e))
    ∧ (∃ d sd, Event.save d SaveFile.finalFile sd ∈ (run o inp g st).trace)
    ∧ (∀ e, (SaveFile.epochFile e).name = "model_epoch_" ++ toString e ++ ".pth")
    ∧ SaveFile.finalFile.name = "model_final.pth" := by
  refine ⟨?_, ?_, fun e => rfl, rfl⟩
  · intro e h1 h2
    constructor
    · rintro ⟨d, sd, hm⟩
      rcases run_save_events o inp g st d _ sd hm with ⟨hfl, _⟩ | ⟨e', l, hfl, _, _, hdue, _⟩
      · exact absurd hfl (by simp)
      · have : e = e' := SaveFile.epochFile.inj hfl
        subst this
        exact Nat.dvd_of_mod_eq_zero hdue
    · intro hdvd
      obtain ⟨sd, hsd⟩ := run_epoch_save_exists o inp g st e
        (List.mem_range'_1.2 ⟨h1, by omega⟩) ((Nat.dvd_iff_mod_eq_zero).1 hdvd)
      exact ⟨_, sd, hsd⟩
  · refine ⟨(run o inp g st).args.save_path,
      ⟨(run o inp g st).final.enc, (run o inp g st).final.dec, none⟩, ?_⟩
    show _ ∈ (setup o inp g st).trace ++ (loopOf o (setup o inp g st)).2
      ++ [finalSaveOf (setup o inp g st) (loopOf o (setup o inp g st)).1]
    exact List.mem_append.2 (Or.inr (List.mem_singleton.2 rfl))

theorem run_final_save_mem (o : ModelOracle) (inp : RunInput) (g : RngState) (st : String) :
    Event.save (run o inp g st).args.save_path SaveFile.finalFile
      ⟨(run o inp g st).final.enc, (run o inp g st).final.dec, none⟩
      ∈ (run o inp g st).trace := by
  show _ ∈ (setup o inp g st).trace ++ (loopOf o (setup o inp g st)).2
    ++ [finalSaveOf (setup o inp g st) (loopOf o (setup o inp g st)).1]
  exact List.mem_append.2 (Or.inr (List.mem_singleton.2 rfl))

/-! ## Concrete instances used by witnesses and counterexamples -/

/-- Three concrete batches. -/
def batchA : Batch := ⟨10, 11, 12, 13, 1⟩

/-- Second concrete batch; its answer index yields a zero loss below. -/
def batchB : Batch := ⟨20, 21, 22, 23, 0⟩

/-- Third concrete batch. -/
def batchC : Batch := ⟨30, 31, 32, 33, 2⟩

/-- A concrete oracle: the loss of a batch is its `ans_ind` as a rational,
the dataloader does not reorder batches. -/
def oracle0 : ModelOracle :=
  { loadData := fun _ => ⟨3, 7, 1, 2, 3, [batchA, batchB, batchC]⟩
    encoderFwd := fun p i q h => p + i + q + h
    decoderFwd := fun p e t => p + e + t
    view := fun t => t
    crossEntropy := fun _ a => (a : ℚ)
    adamStep := fun e d _ _ => (e + 1, d + 1)
    initEncoder := fun r _ => r
    initDecoder := fun r _ => r + 1
    shuffle := fun _ l => l
    nextRng := fun r => r + 1 }

/-- A concrete command line: one epoch, checkpoint every epoch, no GPU, no
checkpoint loading. -/
def cli0 : Args :=
  { num_epochs := 1
    batch_size := 2
    lr := 1
    lr_decay_rate := 1/2
    min_lr := 0
    weight_init := "xavier"
    gpuid := -1
    load_path := ""
    save_path := "ckpt"
    save_step := 1
    img_norm := 1
    concat_history := false
    num_data_points := 0
    vocab_size := 0
    max_ques_count := 0
    max_ques_len := 0
    max_ans_len := 0
    training := false
    iter_per_epoch := 0
    other := 42 }

/-- A concrete checkpoint (only consulted when `load_path` is nonempty). -/
def ckpt0 : LoadedCheckpoint := ⟨100, 101, cli0, 7/10⟩

/-- Concrete run input built from `cli0` and `ckpt0`. -/
def inp0 : RunInput := ⟨cli0, ckpt0⟩

/-- An arbitrary ambient RNG state. -/
def rng0 : RngState := ⟨55, 66⟩

/-! ## C1 -/

/-- C1 counterexample: the claim says every checkpoint written to disk — the
final `model_final.pth` included — carries the optimizer's learning rate, but
in the concrete run below the final save's dictionary has no `lr` entry. -/
theorem c1_counterexample :
    ¬ (∀ d fl sd, Event.save d fl sd ∈ (run oracle0 inp0 rng0 "T").trace →
        ∃ l, sd.lr = some l) := by
  intro hcl
  obtain ⟨l, hl⟩ := hcl (run oracle0 inp0 rng0 "T").args.save_path SaveFile.finalFile
    ⟨(run oracle0 inp0 rng0 "T").final.enc, (run oracle0 inp0 rng0 "T").final.dec, none⟩
    (run_final_save_mem oracle0 inp0 rng0 "T")
  simp at hl

/-- C1 (amended): every periodic per-epoch checkpoint's dictionary contains
the encoder, the decoder and the optimizer's current learning rate, while the
final `model_final.pth` dictionary contains exactly the final encoder and
decoder and no learning-rate entry. -/
theorem c1_checkpoint_contents (o : ModelOracle) (inp : RunInput) (g : RngState)
    (st : String) :
    (∀ d e sd, Event.save d (SaveFile.epochFile e) sd ∈ (run o inp g st).trace →
      ∃ l, sd.lr = some l)
    ∧ (∀ d sd, Event.save d SaveFile.finalFile sd ∈ (run o inp g st).trace →
      sd = ⟨(run o inp g st).final.enc, (run o inp g st).final.dec, none⟩)
    ∧ Event.save (run o inp g st).args.save_path SaveFile.finalFile
        ⟨(run o inp g st).final.enc, (run o inp g st).final.dec, none⟩
        ∈ (run o inp g st).trace := by
  refine ⟨?_, ?_, run_final_save_mem o inp g st⟩
  · intro d e sd hm
    rcases run_save_events o inp g st d _ sd hm with ⟨hfl, _⟩ | ⟨e', l, _, _, _, _, hlr⟩
    · exact absurd hfl (by simp)
    · exact ⟨l, hlr⟩
  · intro d sd hm
    rcases run_save_events o inp g st d _ sd hm with ⟨_, _, hsd⟩ | ⟨e', l, hfl, _⟩
    · exact hsd
    · exact absurd hfl (by simp)

/-- C1 witness: the amended statement instantiated at a concrete run. -/
theorem c1_checkpoint_contents_witness :
    (∀ d e sd, Event.save d (SaveFile.epochFile e) sd ∈ (run oracle0 inp0 rng0 "T").trace →
      ∃ l, sd.lr = some l)
    ∧ (∀ d sd, Event.save d SaveFile.finalFile sd ∈ (run oracle0 inp0 rng0 "T").trace →
      sd = ⟨(run oracle0 inp0 rng0 "T").final.enc, (run oracle0 inp0 rng0 "T").final.dec, none⟩)
    ∧ Event.save (run oracle0 inp0 rng0 "T").args.save_path SaveFile.finalFile
        ⟨(run oracle0 inp0 rng0 "T").final.enc, (run oracle0 inp0 rng0 "T").final.dec, none⟩
        ∈ (run oracle0 inp0 rng0 "T").trace :=
  c1_checkpoint_contents oracle0 inp0 rng0 "T"

/-- C3 witness: the checkpoint-schedule statement instantiated at a concrete
run with `save_step = 1 > 0`. -/
theorem c3_checkpoint_iff_save_step_witness :
    0 < inp0.cli.save_step ∧
    ((∀ e, 1 ≤ e → e ≤ (run oracle0 inp0 rng0 "T").modelArgs.num_epochs →
      ((∃ d sd, Event.save d (SaveFile.epochFile e) sd ∈ (run oracle0 inp0 rng0 "T").trace)
        ↔ inp0.cli.save_step ∣ e))
    ∧ (∃ d sd, Event.save d SaveFile.finalFile sd ∈ (run oracle0 inp0 rng0 "T").trace)
    ∧ (∀ e, (SaveFile.epochFile e).name = "model_epoch_" ++ toString e ++ ".pth")
    ∧ SaveFile.finalFile.name = "model_final.pth") :=
  ⟨by norm_num [inp0, cli0],
   c3_checkpoint_iff_save_step oracle0 inp0 rng0 "T" (by norm_num [inp0, cli0])⟩

/-! ## C2 -/

theorem run_dataset_before_build (o : ModelOracle) (inp : RunInput) (g : RngState)
    (st : String) :
    precedes Event.isLoadDataset Event.isBuild (run o inp g st).trace := by
  have htr : (run o inp g st).trace =
      (([Event.manualSeed 1234]
        ++ (if 0 ≤ inp.cli.gpuid then [Event.cudaManualSeedAll 1234] else [])
        ++ (if inp.cli.load_path ≠ "" then
              [Event.loadCheckpointFile inp.cli.load_path] else []))
        ++ [Event.loadDataset])
      ++ ((if inp.cli.load_path ≠ "" then []
            else [Event.buildEncoder, Event.buildDecoder])
        ++ ((loopOf o (setup o inp g st)).2
          ++ [finalSaveOf (setup o inp g st) (loopOf o (setup o inp g st)).1])) := by
    show (setup o inp g st).trace ++ _ ++ _ = _
    rw [setup_trace]
    simp [List.append_assoc]
  rw [htr]
  apply precedes_append_left
  · by_cases hl : inp.cli.load_path = "" <;> by_cases hg : 0 ≤ inp.cli.gpuid <;>
      simp [cnt_append, cnt, Event.isLoadDataset, hl, hg]
  · by_cases hl : inp.cli.load_path = "" <;> by_cases hg : 0 ≤ inp.cli.gpuid <;>
      simp [cnt_append, cnt, Event.isBuild, hl, hg]

theorem cnt_setup_encoderCall (o : ModelOracle) (inp : RunInput) (g : RngState)
    (st : String) : cnt Event.isEncoderCall (setup o inp g st).trace = 0 := by
  apply cnt_setup <;> intros <;> rfl

theorem run_model_before_forward (o : ModelOracle) (inp : RunInput) (g : RngState)
    (st : String) :
    precedes Event.isModelReady Event.isEncoderCall (run o inp g st).trace := by
  have htr : (run o inp g st).trace = (setup o inp g st).trace
      ++ ((loopOf o (setup o inp g st)).2
        ++ [finalSaveOf (setup o inp g st) (loopOf o (setup o inp g st)).1]) := by
    show (setup o inp g st).trace ++ _ ++ _ = _
    simp [List.append_assoc]
  rw [htr]
  apply precedes_append_left
  · rw [setup_trace]
    by_cases hl : inp.cli.load_path = "" <;> by_cases hg : 0 ≤ inp.cli.gpuid <;>
      simp [cnt_append, cnt, Event.isModelReady, hl, hg]
  · exact cnt_setup_encoderCall o inp g st

theorem run_chainLe_dec_enc (o : ModelOracle) (inp : RunInput) (g : RngState)
    (st : String) :
    chainLe Event.isDecoderCall Event.isEncoderCall (run o inp g st).trace := by
  show chainLe _ _ ((setup o inp g st).trace ++ (loopOf o (setup o inp g st)).2
    ++ [finalSaveOf (setup o inp g st) (loopOf o (setup o inp g st)).1])
  refine chainLe_append (chainLe_append ?_ ?_) ?_
  · exact chainLe_of_cnt_zero _ (by apply cnt_setup <;> intros <;> rfl)
  · exact runEpochs_chainLe o _ _ (chainLe_iterEvents_dec_enc o _) (by intros; rfl) _ _
  · exact chainLe_of_cnt_zero _ (by simp [cnt, finalSaveOf, Event.isDecoderCall])

theorem run_chainLe_crit_dec (o : ModelOracle) (inp : RunInput) (g : RngState)
    (st : String) :
    chainLe Event.isCriterionCall Event.isDecoderCall (run o inp g st).trace := by
  show chainLe _ _ ((setup o inp g st).trace ++ (loopOf o (setup o inp g st)).2
    ++ [finalSaveOf (setup o inp g st) (loopOf o (setup o inp g st)).1])
  refine chainLe_append (chainLe_append ?_ ?_) ?_
  · exact chainLe_of_cnt_zero _ (by apply cnt_setup <;> intros <;> rfl)
  · exact runEpochs_chainLe o _ _ (chainLe_iterEvents_crit_dec o _) (by intros; rfl) _ _
  · exact chainLe_of_cnt_zero _ (by simp [cnt, finalSaveOf, Event.isCriterionCall])

theorem run_chainLe_back_crit (o : ModelOracle) (inp : RunInput) (g : RngState)
    (st : String) :
    chainLe Event.isBackward Event.isCriterionCall (run o inp g st).trace := by
  show chainLe _ _ ((setup o inp g st).trace ++ (loopOf o (setup o inp g st)).2
    ++ [finalSaveOf (setup o inp g st) (loopOf o (setup o inp g st)).1])
  refine chainLe_append (chainLe_append ?_ ?_) ?_
  · exact chainLe_of_cnt_zero _ (by apply cnt_setup <;> intros <;> rfl)
  · exact runEpochs_chainLe o _ _ (chainLe_iterEvents_back_crit o _) (by intros; rfl) _ _
  · exact chainLe_of_cnt_zero _ (by simp [cnt, finalSaveOf, Event.isBackward])

theorem run_chainLe_step_back (o : ModelOracle) (inp : RunInput) (g : RngState)
    (st : String) :
    chainLe Event.isOptimizerStep Event.isBackward (run o inp g st).trace := by
  show chainLe _ _ ((setup o inp g st).trace ++ (loopOf o (setup o inp g st)).2
    ++ [finalSaveOf (setup o inp g st) (loopOf o (setup o inp g st)).1])
  refine chainLe_append (chainLe_append ?_ ?_) ?_
  · exact chainLe_of_cnt_zero _ (by apply cnt_setup <;> intros <;> rfl)
  · exact runEpochs_chainLe o _ _ (chainLe_iterEvents_step_back o _) (by intros; rfl) _ _
  · exact chainLe_of_cnt_zero _ (by simp [cnt, finalSaveOf, Event.isOptimizerStep])

theorem run_cnt_optStep (o : ModelOracle) (inp : RunInput) (g : RngState) (st : String) :
    cnt Event.isOptimizerStep (run o inp g st).trace
      = ((run o inp g st).final.shuffles.map List.length).sum := by
  have h := runEpochs_cnt_one o (setup o inp g st).args (setup o inp g st).ds.data
    Event.isOptimizerStep (cnt_iterEvents_optStep o _) (by intros; rfl)
    (List.range' 1 (setup o inp g st).modelArgs.num_epochs) (initState (setup o inp g st))
  have h0 : cnt Event.isOptimizerStep (setup o inp g st).trace = 0 := by
    apply cnt_setup <;> intros <;> rfl
  show cnt _ ((setup o inp g st).trace ++ (loopOf o (setup o inp g st)).2
    ++ [finalSaveOf (setup o inp g st) (loopOf o (setup o inp g st)).1]) = _
  rw [cnt_append, cnt_append, h0]
  have hfin : cnt Event.isOptimizerStep
      [finalSaveOf (setup o inp g st) (loopOf o (setup o inp g st)).1] = 0 := by
    simp [cnt, finalSaveOf, Event.isOptimizerStep]
  rw [hfin]
  have : (initState (setup o inp g st)).shuffles = [] := rfl
  rw [this] at h
  simpa [loopOf] using h

theorem run_cnt_encCall (o : ModelOracle) (inp : RunInput) (g : RngState) (st : String) :
    cnt Event.isEncoderCall (run o inp g st).trace
      = ((run o inp g st).final.shuffles.map List.length).sum := by
  have h := runEpochs_cnt_one o (setup o inp g st).args (setup o inp g st).ds.data
    Event.isEncoderCall (cnt_iterEvents_enc o _) (by intros; rfl)
    (List.range' 1 (setup o inp g st).modelArgs.num_epochs) (initState (setup o inp g st))
  show cnt _ ((setup o inp g st).trace ++ (loopOf o (setup o inp g st)).2
    ++ [finalSaveOf (setup o inp g st) (loopOf o (setup o inp g st)).1]) = _
  rw [cnt_append, cnt_append, cnt_setup_encoderCall]
  have hfin : cnt Event.isEncoderCall
      [finalSaveOf (setup o inp g st) (loopOf o (setup o inp g st)).1] = 0 := by
    simp [cnt, finalSaveOf, Event.isEncoderCall]
  rw [hfin]
  have : (initState (setup o inp g st)).shuffles = [] := rfl
  rw [this] at h
  simpa [loopOf] using h

theorem run_epoch_blocks (o : ModelOracle) (inp : RunInput) (g : RngState) (st : String) :
    ∃ pre blocks fin,
      (run o inp g st).trace = pre ++ blocks.flatten ++ [fin]
      ∧ cnt Event.isSave pre = 0 ∧ cnt Event.isOptimizerStep pre = 0
      ∧ fin.isSave = true
      ∧ List.Forall₂ (fun blk sh => ∃ iters sv, blk = iters ++ sv
          ∧ cnt Event.isSave iters = 0
          ∧ cnt Event.isOptimizerStep iters = sh.length
          ∧ (∀ ev ∈ sv, ev.isSave = true))
        blocks (run o inp g st).final.shuffles := by
  obtain ⟨blocks, hb1, hb2⟩ := runEpochs_decomp o (setup o inp g st).args
    (setup o inp g st).ds.data (List.range' 1 (setup o inp g st).modelArgs.num_epochs)
    (initState (setup o inp g st))
  refine ⟨(setup o inp g st).trace, blocks,
    finalSaveOf (setup o inp g st) (loopOf o (setup o inp g st)).1, ?_, ?_, ?_, rfl, ?_⟩
  · show (setup o inp g st).trace ++ (loopOf o (setup o inp g st)).2 ++ _ = _
    rw [show (loopOf o (setup o inp g st)).2 = blocks.flatten from hb1]
  · exact cnt_setup_save o inp g st
  · apply cnt_setup <;> intros <;> rfl
  · have : (initState (setup o inp g st)).shuffles = [] := rfl
    rw [this, List.length_nil, List.drop_zero] at hb2
    exact hb2

/-- C2: the training procedure runs its stages in order — the dataset is
loaded before the encoder/decoder modules are built, the modules exist before
any forward call, and within the iterations the k-th decoder call follows the
k-th encoder call, the k-th criterion call follows the k-th decoder call, the
k-th backward follows the k-th criterion call, and the k-th optimizer step
follows the k-th backward (in particular no optimizer step precedes its
backward pass); there is exactly one optimizer step and one encoder call per
processed batch; and the trace decomposes into a save-free, step-free setup
part, one block per epoch whose checkpoint writes come only after all of that
epoch's optimizer steps, and a final save event. -/
theorem c2_stage_order (o : ModelOracle) (inp : RunInput) (g : RngState) (st : String) :
    precedes Event.isLoadDataset Event.isBuild (run o inp g st).trace
    ∧ precedes Event.isModelReady Event.isEncoderCall (run o inp g st).trace
    ∧ chainLe Event.isDecoderCall Event.isEncoderCall (run o inp g st).trace
    ∧ chainLe Event.isCriterionCall Event.isDecoderCall (run o inp g st).trace
    ∧ chainLe Event.isBackward Event.isCriterionCall (run o inp g st).trace
    ∧ chainLe Event.isOptimizerStep Event.isBackward (run o inp g st).trace
    ∧ cnt Event.isOptimizerStep (run o inp g st).trace
        = ((run o inp g st).final.shuffles.map List.length).sum
    ∧ cnt Event.isEncoderCall (run o inp g st).trace
        = ((run o inp g st).final.shuffles.map List.length).sum
    ∧ (∃ pre blocks fin,
        (run o inp g st).trace = pre ++ blocks.flatten ++ [fin]
        ∧ cnt Event.isSave pre = 0 ∧ cnt Event.isOptimizerStep pre = 0
        ∧ fin.isSave = true
        ∧ List.Forall₂ (fun blk sh => ∃ iters sv, blk = iters ++ sv
            ∧ cnt Event.isSave iters = 0
            ∧ cnt Event.isOptimizerStep iters = sh.length
            ∧ (∀ ev ∈ sv, ev.isSave = true))
          blocks (run o inp g st).final.shuffles) :=
  ⟨run_dataset_before_build o inp g st, run_model_before_forward o inp g st,
   run_chainLe_dec_enc o inp g st, run_chainLe_crit_dec o inp g st,
   run_chainLe_back_crit o inp g st, run_chainLe_step_back o inp g st,
   run_cnt_optStep o inp g st, run_cnt_encCall o inp g st,
   run_epoch_blocks o inp g st⟩

/-- C2 witness: the stage-order statement instantiated at a concrete run. -/
theorem c2_stage_order_witness :
    precedes Event.isLoadDataset Event.isBuild (run oracle0 inp0 rng0 "T").trace
    ∧ precedes Event.isModelReady Event.isEncoderCall (run oracle0 inp0 rng0 "T").trace
    ∧ chainLe Event.isDecoderCall Event.isEncoderCall (run oracle0 inp0 rng0 "T").trace
    ∧ chainLe Event.isCriterionCall Event.isDecoderCall (run oracle0 inp0 rng0 "T").trace
    ∧ chainLe Event.isBackward Event.isCriterionCall (run oracle0 inp0 rng0 "T").trace
    ∧ chainLe Event.isOptimizerStep Event.isBackward (run oracle0 inp0 rng0 "T").trace
    ∧ cnt Event.isOptimizerStep (run oracle0 inp0 rng0 "T").trace
        = ((run oracle0 inp0 rng0 "T").final.shuffles.map List.length).sum
    ∧ cnt Event.isEncoderCall (run oracle0 inp0 rng0 "T").trace
        = ((run oracle0 inp0 rng0 "T").final.shuffles.map List.length).sum
    ∧ (∃ pre blocks fin,
        (run oracle0 inp0 rng0 "T").trace = pre ++ blocks.flatten ++ [fin]
        ∧ cnt Event.isSave pre = 0 ∧ cnt Event.isOptimizerStep pre = 0
        ∧ fin.isSave = true
        ∧ List.Forall₂ (fun blk sh => ∃ iters sv, blk = iters ++ sv
            ∧ cnt Event.isSave iters = 0
            ∧ cnt Event.isOptimizerStep iters = sh.length
            ∧ (∀ ev ∈ sv, ev.isSave = true))
          blocks (run oracle0 inp0 rng0 "T").final.shuffles) :=
  c2_stage_order oracle0 inp0 rng0 "T"

/-! ## C4 and C5 -/

theorem run_trace_mem_cases (o : ModelOracle) (inp : RunInput) (g : RngState)
    (st : String) (ev : Event) (hm : ev ∈ (run o inp g st).trace) :
    ev ∈ (setup o inp g st).trace ∨ ev ∈ (loopOf o (setup o inp g st)).2
    ∨ ev = finalSaveOf (setup o inp g st) (loopOf o (setup o inp g st)).1 := by
  have htr : (run o inp g st).trace = (setup o inp g st).trace
      ++ (loopOf o (setup o inp g st)).2
      ++ [finalSaveOf (setup o inp g st) (loopOf o (setup o inp g st)).1] := rfl
  rw [htr] at hm
  rcases List.mem_append.1 hm with h | h
  · rcases List.mem_append.1 h with h' | h'
    · exact Or.inl h'
    · exact Or.inr (Or.inl h')
  · exact Or.inr (Or.inr (List.mem_singleton.1 h))

theorem run_cnt_decCall (o : ModelOracle) (inp : RunInput) (g : RngState) (st : String) :
    cnt Event.isDecoderCall (run o inp g st).trace
      = ((run o inp g st).final.shuffles.map List.length).sum := by
  have h := runEpochs_cnt_one o (setup o inp g st).args (setup o inp g st).ds.data
    Event.isDecoderCall (cnt_iterEvents_dec o _) (by intros; rfl)
    (List.range' 1 (setup o inp g st).modelArgs.num_epochs) (initState (setup o inp g st))
  show cnt _ ((setup o inp g st).trace ++ (loopOf o (setup o inp g st)).2
    ++ [finalSaveOf (setup o inp g st) (loopOf o (setup o inp g st)).1]) = _
  rw [cnt_append, cnt_append]
  have h0 : cnt Event.isDecoderCall (setup o inp g st).trace = 0 := by
    apply cnt_setup <;> intros <;> rfl
  have hfin : cnt Event.isDecoderCall
      [finalSaveOf (setup o inp g st) (loopOf o (setup o inp g st)).1] = 0 := by
    simp [cnt, finalSaveOf, Event.isDecoderCall]
  rw [h0, hfin]
  have : (initState (setup o inp g st)).shuffles = [] := rfl
  rw [this] at h
  simpa [loopOf] using h

theorem run_cnt_critCall (o : ModelOracle) (inp : RunInput) (g : RngState) (st : String) :
    cnt Event.isCriterionCall (run o inp g st).trace
      = ((run o inp g st).final.shuffles.map List.length).sum := by
  have h := runEpochs_cnt_one o (setup o inp g st).args (setup o inp g st).ds.data
    Event.isCriterionCall (cnt_iterEvents_criterion o _) (by intros; rfl)
    (List.range' 1 (setup o inp g st).modelArgs.num_epochs) (initState (setup o inp g st))
  show cnt _ ((setup o inp g st).trace ++ (loopOf o (setup o inp g st)).2
    ++ [finalSaveOf (setup o inp g st) (loopOf o (setup o inp g st)).1]) = _
  rw [cnt_append, cnt_append]
  have h0 : cnt Event.isCriterionCall (setup o inp g st).trace = 0 := by
    apply cnt_setup <;> intros <;> rfl
  have hfin : cnt Event.isCriterionCall
      [finalSaveOf (setup o inp g st) (loopOf o (setup o inp g st)).1] = 0 := by
    simp [cnt, finalSaveOf, Event.isCriterionCall]
  rw [h0, hfin]
  have : (initState (setup o inp g st)).shuffles = [] := rfl
  rw [this] at h
  simpa [loopOf] using h

/-- C5: for every training batch, the encoder is applied to exactly three
inputs — the batch's image features, question token ids, and dialog-history
token ids: every encoder call in the trace carries the `img_feat`, `ques_fwd`
and `hist` fields of some batch drawn by the dataloader, and there is exactly
one encoder call per processed batch. -/
theorem c5_encoder_inputs (o : ModelOracle) (inp : RunInput) (g : RngState) (st : String) :
    (∀ i q h, Event.encoderCall i q h ∈ (run o inp g st).trace →
      ∃ sh ∈ (run o inp g st).final.shuffles, ∃ b ∈ sh,
        i = b.img_feat ∧ q = b.ques_fwd ∧ h = b.hist)
    ∧ cnt Event.isEncoderCall (run o inp g st).trace
        = ((run o inp g st).final.shuffles.map List.length).sum := by
  refine ⟨?_, run_cnt_encCall o inp g st⟩
  intro i q h hm
  rcases run_trace_mem_cases o inp g st _ hm with hc | hc | hc
  · exfalso
    have := cnt_pos_of_mem hc (show Event.isEncoderCall (Event.encoderCall i q h) = true from rfl)
    rw [cnt_setup_encoderCall] at this
    omega
  · exact runEpochs_mem_enc o (setup o inp g st).args (setup o inp g st).ds.data _ _ i q h hc
  · exact absurd hc (by simp [finalSaveOf])

/-- C5 witness: the encoder-inputs statement instantiated at a concrete run. -/
theorem c5_encoder_inputs_witness :
    (∀ i q h, Event.encoderCall i q h ∈ (run oracle0 inp0 rng0 "T").trace →
      ∃ sh ∈ (run oracle0 inp0 rng0 "T").final.shuffles, ∃ b ∈ sh,
        i = b.img_feat ∧ q = b.ques_fwd ∧ h = b.hist)
    ∧ cnt Event.isEncoderCall (run oracle0 inp0 rng0 "T").trace
        = ((run oracle0 inp0 rng0 "T").final.shuffles.map List.length).sum :=
  c5_encoder_inputs oracle0 inp0 rng0 "T"

/-- C4: for every training batch, the decoder is applied to exactly two
inputs — an encoder output computed from that batch's image, question and
history, and the batch's candidate answer options `opt` — and the training
loss passed to backward is the cross-entropy of the decoder's scores against
the batch's ground-truth answer indices `ans_ind` (reshaped by `view`);
there is exactly one decoder call and one criterion call per processed
batch. -/
theorem c4_decoder_and_loss (o : ModelOracle) (inp : RunInput) (g : RngState) (st : String) :
    (∀ x y, Event.decoderCall x y ∈ (run o inp g st).trace →
      ∃ sh ∈ (run o inp g st).final.shuffles, ∃ b ∈ sh, ∃ p : Params,
        x = o.encoderFwd p b.img_feat b.ques_fwd b.hist ∧ y = b.opt)
    ∧ (∀ dOut aIdx l, Event.criterionCall dOut aIdx l ∈ (run o inp g st).trace →
      ∃ sh ∈ (run o inp g st).final.shuffles, ∃ b ∈ sh, ∃ p q : Params,
        dOut = o.decoderFwd q (o.encoderFwd p b.img_feat b.ques_fwd b.hist) b.opt ∧
        aIdx = o.view b.ans_ind ∧ l = o.crossEntropy dOut aIdx)
    ∧ cnt Event.isDecoderCall (run o inp g st).trace
        = ((run o inp g st).final.shuffles.map List.length).sum
    ∧ cnt Event.isCriterionCall (run o inp g st).trace
        = ((run o inp g st).final.shuffles.map List.length).sum := by
  refine ⟨?_, ?_, run_cnt_decCall o inp g st, run_cnt_critCall o inp g st⟩
  · intro x y hm
    rcases run_trace_mem_cases o inp g st _ hm with hc | hc | hc
    · exfalso
      have := cnt_pos_of_mem hc
        (show Event.isDecoderCall (Event.decoderCall x y) = true from rfl)
      have h0 : cnt Event.isDecoderCall (setup o inp g st).trace = 0 := by
        apply cnt_setup <;> intros <;> rfl
      rw [h0] at this
      omega
    · exact runEpochs_mem_dec o (setup o inp g st).args (setup o inp g st).ds.data _ _ x y hc
    · exact absurd hc (by simp [finalSaveOf])
  · intro x y l hm
    rcases run_trace_mem_cases o inp g st _ hm with hc | hc | hc
    · exfalso
      have := cnt_pos_of_mem hc
        (show Event.isCriterionCall (Event.criterionCall x y l) = true from rfl)
      have h0 : cnt Event.isCriterionCall (setup o inp g st).trace = 0 := by
        apply cnt_setup <;> intros <;> rfl
      rw [h0] at this
      omega
    · exact runEpochs_mem_crit o (setup o inp g st).args (setup o inp g st).ds.data _ _ x y l hc
    · exact absurd hc (by simp [finalSaveOf])

/-- C4 witness: the decoder/loss statement instantiated at a concrete run. -/
theorem c4_decoder_and_loss_witness :
    (∀ x y, Event.decoderCall x y ∈ (run oracle0 inp0 rng0 "T").trace →
      ∃ sh ∈ (run oracle0 inp0 rng0 "T").final.shuffles, ∃ b ∈ sh, ∃ p : Params,
        x = oracle0.encoderFwd p b.img_feat b.ques_fwd b.hist ∧ y = b.opt)
    ∧ (∀ dOut aIdx l, Event.criterionCall dOut aIdx l ∈ (run oracle0 inp0 rng0 "T").trace →
      ∃ sh ∈ (run oracle0 inp0 rng0 "T").final.shuffles, ∃ b ∈ sh, ∃ p q : Params,
        dOut = oracle0.decoderFwd q (oracle0.encoderFwd p b.img_feat b.ques_fwd b.hist) b.opt ∧
        aIdx = oracle0.view b.ans_ind ∧ l = oracle0.crossEntropy dOut aIdx)
    ∧ cnt Event.isDecoderCall (run oracle0 inp0 rng0 "T").trace
        = ((run oracle0 inp0 rng0 "T").final.shuffles.map List.length).sum
    ∧ cnt Event.isCriterionCall (run oracle0 inp0 rng0 "T").trace
        = ((run oracle0 inp0 rng0 "T").final.shuffles.map List.length).sum :=
  c4_decoder_and_loss oracle0 inp0 rng0 "T"

/-! ## C6 -/

theorem precedes_of_head {f g : Event → Bool} {e : Event} (h : f e = true)
    (t : List Event) : precedes f g (e :: t) := by
  intro n hn
  cases n with
  | zero => simp [cnt] at hn
  | succ m => simp [cnt, h]

theorem precedes_of_second {f g : Event → Bool} {e1 e2 : Event}
    (h1 : g e1 = false) (h2 : f e2 = true) (t : List Event) :
    precedes f g (e1 :: e2 :: t) := by
  intro n hn
  cases n with
  | zero => simp [cnt] at hn
  | succ m =>
    cases m with
    | zero => simp [cnt, h1] at hn
    | succ m' => simp [cnt, h2]

/-- C6: before any model construction or data loading the RNG is seeded with
the fixed constant 1234 (and the CUDA generators likewise when a GPU is
selected), so two runs with identical arguments and identical input data —
but arbitrary ambient RNG states — produce identical results, in particular
identical initial model parameters and identical batch shuffling decisions. -/
theorem c6_seed_and_determinism (o : ModelOracle) (inp : RunInput) (st : String)
    (g g' : RngState) :
    run o inp g st = run o inp g' st
    ∧ (run o inp g st).trace.head? = some (Event.manualSeed 1234)
    ∧ precedes Event.isManualSeed Event.isLoadDataset (run o inp g st).trace
    ∧ precedes Event.isManualSeed Event.isModelReady (run o inp g st).trace
    ∧ (0 ≤ inp.cli.gpuid →
        Event.cudaManualSeedAll 1234 ∈ (run o inp g st).trace
        ∧ precedes Event.isCudaSeed Event.isLoadDataset (run o inp g st).trace
        ∧ precedes Event.isCudaSeed Event.isModelReady (run o inp g st).trace) := by
  obtain ⟨rest, hrest⟩ : ∃ rest,
      (run o inp g st).trace = Event.manualSeed 1234 :: rest := by
    show ∃ rest, (setup o inp g st).trace ++ _ ++ _ = _
    rw [setup_trace]
    refine ⟨(if 0 ≤ inp.cli.gpuid then [Event.cudaManualSeedAll 1234] else [])
      ++ ((if inp.cli.load_path ≠ "" then [Event.loadCheckpointFile inp.cli.load_path] else [])
      ++ ([Event.loadDataset]
      ++ ((if inp.cli.load_path ≠ "" then [] else [Event.buildEncoder, Event.buildDecoder])
      ++ ((loopOf o (setup o inp g st)).2
      ++ [finalSaveOf (setup o inp g st) (loopOf o (setup o inp g st)).1])))), ?_⟩
    simp [List.append_assoc]
  refine ⟨?_, ?_, ?_, ?_, ?_⟩
  · show runFrom o (setup o inp g st) = runFrom o (setup o inp g' st)
    rw [setup_args_indep_rng o inp g g' st]
  · rw [hrest]; rfl
  · rw [hrest]; exact precedes_of_head rfl rest
  · rw [hrest]; exact precedes_of_head rfl rest
  · intro hg
    obtain ⟨rest2, hrest2⟩ : ∃ rest2, (run o inp g st).trace
        = Event.manualSeed 1234 :: Event.cudaManualSeedAll 1234 :: rest2 := by
      show ∃ rest2, (setup o inp g st).trace ++ _ ++ _ = _
      rw [setup_trace, if_pos hg]
      refine ⟨(if inp.cli.load_path ≠ "" then
          [Event.loadCheckpointFile inp.cli.load_path] else [])
        ++ ([Event.loadDataset]
        ++ ((if inp.cli.load_path ≠ "" then [] else [Event.buildEncoder, Event.buildDecoder])
        ++ ((loopOf o (setup o inp g st)).2
        ++ [finalSaveOf (setup o inp g st) (loopOf o (setup o inp g st)).1]))), ?_⟩
      simp [List.append_assoc]
    refine ⟨?_, ?_, ?_⟩
    · rw [hrest2]; exact List.mem_cons_of_mem _ (List.mem_cons_self _ _)
    · rw [hrest2]; exact precedes_of_second rfl rfl rest2
    · rw [hrest2]; exact precedes_of_second rfl rfl rest2

/-- A GPU-selecting command line, otherwise like `cli0`. -/
def cliG : Args := { cli0 with gpuid := 0 }

/-- Run input with a GPU selected. -/
def inpG : RunInput := ⟨cliG, ckpt0⟩

/-- C6 witness: the seeding/determinism statement instantiated at a concrete
GPU-selecting run and two distinct ambient RNG states. -/
theorem c6_seed_and_determinism_witness :
    run oracle0 inpG rng0 "T" = run oracle0 inpG ⟨0, 0⟩ "T"
    ∧ (run oracle0 inpG rng0 "T").trace.head? = some (Event.manualSeed 1234)
    ∧ precedes Event.isManualSeed Event.isLoadDataset (run oracle0 inpG rng0 "T").trace
    ∧ precedes Event.isManualSeed Event.isModelReady (run oracle0 inpG rng0 "T").trace
    ∧ (0 ≤ inpG.cli.gpuid →
        Event.cudaManualSeedAll 1234 ∈ (run oracle0 inpG rng0 "T").trace
        ∧ precedes Event.isCudaSeed Event.isLoadDataset (run oracle0 inpG rng0 "T").trace
        ∧ precedes Event.isCudaSeed Event.isModelReady (run oracle0 inpG rng0 "T").trace) :=
  c6_seed_and_determinism oracle0 inpG "T" rng0 ⟨0, 0⟩

/-! ## C7 -/

theorem lrList_lb (a : Args) (hd : 0 < a.lr_decay_rate) :
    ∀ n lr, a.min_lr * a.lr_decay_rate ≤ lr →
      ∀ x ∈ lrList a lr n, a.min_lr * a.lr_decay_rate ≤ x := by
  intro n
  induction n with
  | zero => intro lr _ x hx; simp [lrList] at hx
  | succ n ih =>
    intro lr hlr x hx
    rcases List.mem_cons.1 hx with h | h
    · subst h; exact lrStep_lb a lr hd hlr
    · exact ih (lrStep a lr) (lrStep_lb a lr hd hlr) x h

/-- The learning rate before the first iteration followed by the recorded
learning rate after every iteration of the run. -/
def lrTrajOf (o : ModelOracle) (inp : RunInput) (g : RngState) (st : String) : List ℚ :=
  (run o inp g st).initialLr :: (run o inp g st).final.lrHist

/-- Command line with `lr_decay_rate = 2 > 1`: the learning rate grows. -/
def cli7a : Args := { cli0 with lr_decay_rate := 2 }

/-- Run input for the growing-learning-rate counterexample. -/
def inp7a : RunInput := ⟨cli7a, ckpt0⟩

/-- Command line whose initial learning rate `1/8` is already below
`min_lr * lr_decay_rate = 1/4`. -/
def cli7b : Args := { cli0 with lr := 1/8, min_lr := 1/2 }

/-- Run input for the low-initial-learning-rate counterexample. -/
def inp7b : RunInput := ⟨cli7b, ckpt0⟩

/-- C7 counterexample: as stated the claim fails on the code — with
`-lr_decay_rate 2` the learning rate strictly increases (so it is not
non-increasing), and with `-lr 1/8 -min_lr 1/2` the learning rate stays
forever below `min_lr * lr_decay_rate` (so the claimed lower bound fails). -/
theorem c7_counterexample :
    (¬ List.Chain' (fun x y => y ≤ x) (lrTrajOf oracle0 inp7a rng0 "T"))
    ∧ (¬ ∀ x ∈ (run oracle0 inp7b rng0 "T").final.lrHist,
          inp7b.cli.min_lr * inp7b.cli.lr_decay_rate ≤ x) := by
  constructor
  · intro hch
    have h2 : lrTrajOf oracle0 inp7a rng0 "T" = [1, 2, 4, 8] := by
      simp [lrTrajOf, run, runFrom, loopOf, initState, setup, runEpochs, runEpoch,
        runBatches, iterNext, iterEvents, batchLoss, lrStep, rlUpdate, epochSaves,
        applyDatasetKeys, oracle0, inp7a, cli7a, cli0, ckpt0, rng0, batchA, batchB, batchC]
      norm_num
    rw [h2, List.chain'_cons] at hch
    exact absurd hch.1 (by norm_num)
  · intro hall
    have h2 : (run oracle0 inp7b rng0 "T").final.lrHist = [1/8, 1/8, 1/8] := by
      simp [run, runFrom, loopOf, initState, setup, runEpochs, runEpoch,
        runBatches, iterNext, iterEvents, batchLoss, lrStep, rlUpdate, epochSaves,
        applyDatasetKeys, oracle0, inp7b, cli7b, cli0, ckpt0, rng0, batchA, batchB, batchC]
      norm_num
    have := hall (1/8) (by rw [h2]; simp)
    norm_num [inp7b, cli7b, cli0] at this

/-- C7 (amended): provided the command-line decay rate lies in `(0, 1]` and
the optimizer's initial learning rate is nonnegative and at least
`min_lr * lr_decay_rate`, then along the run: consecutive recorded learning
rates satisfy the decay rule (multiplied by `lr_decay_rate` exactly when the
current value exceeds `min_lr`), the sequence is non-increasing, after every
iteration the learning rate is at least `min_lr * lr_decay_rate`, and once a
value is at most `min_lr` the learning rate stays constant for the rest of
the run. -/
theorem c7_lr_decay_monotone (o : ModelOracle) (inp : RunInput) (g : RngState)
    (st : String)
    (hd : 0 < inp.cli.lr_decay_rate) (hd1 : inp.cli.lr_decay_rate ≤ 1)
    (h0 : 0 ≤ (run o inp g st).initialLr)
    (hlb : inp.cli.min_lr * inp.cli.lr_decay_rate ≤ (run o inp g st).initialLr) :
    (∀ i (h : i + 1 < (lrTrajOf o inp g st).length),
      (lrTrajOf o inp g st).get ⟨i + 1, h⟩
        = (if inp.cli.min_lr < (lrTrajOf o inp g st).get ⟨i, Nat.lt_of_succ_lt h⟩
           then (lrTrajOf o inp g st).get ⟨i, Nat.lt_of_succ_lt h⟩ * inp.cli.lr_decay_rate
           else (lrTrajOf o inp g st).get ⟨i, Nat.lt_of_succ_lt h⟩))
    ∧ (∀ i (h : i + 1 < (lrTrajOf o inp g st).length),
      (lrTrajOf o inp g st).get ⟨i + 1, h⟩
        ≤ (lrTrajOf o inp g st).get ⟨i, Nat.lt_of_succ_lt h⟩)
    ∧ (∀ x ∈ (run o inp g st).final.lrHist,
        inp.cli.min_lr * inp.cli.lr_decay_rate ≤ x)
    ∧ (∀ i j (hi : i < (lrTrajOf o inp g st).length)
        (hj : j < (lrTrajOf o inp g st).length), i ≤ j →
        (lrTrajOf o inp g st).get ⟨i, hi⟩ ≤ inp.cli.min_lr →
        (lrTrajOf o inp g st).get ⟨j, hj⟩ = (lrTrajOf o inp g st).get ⟨i, hi⟩) := by
  obtain ⟨n, hn⟩ := run_lrHist_ex o inp g st
  have hmn : (run o inp g st).args.min_lr = inp.cli.min_lr := setup_args_min_lr o inp g st
  have hdc : (run o inp g st).args.lr_decay_rate = inp.cli.lr_decay_rate :=
    setup_args_lr_decay_rate o inp g st
  have hL : lrTrajOf o inp g st
      = (run o inp g st).initialLr
        :: lrList (run o inp g st).args (run o inp g st).initialLr n := by
    unfold lrTrajOf
    rw [hn]
  have hget : ∀ i (h : i < (lrTrajOf o inp g st).length),
      (lrTrajOf o inp g st).get ⟨i, h⟩
        = lrSeq (run o inp g st).args (run o inp g st).initialLr i := by
    intro i h
    rw [List.get_of_eq hL]
    exact lrTraj_get (run o inp g st).args n (run o inp g st).initialLr i _
  refine ⟨?_, ?_, ?_, ?_⟩
  · intro i h
    rw [hget, hget, lrSeq_succ]
    simp only [lrStep, hmn, hdc]
  · intro i h
    rw [hget, hget, lrSeq_succ]
    exact lrStep_le (run o inp g st).args _
      (lrSeq_nonneg (run o inp g st).args (by rw [hdc]; exact le_of_lt hd) i _ h0)
      (by rw [hdc]; exact hd1)
  · intro x hx
    rw [hn] at hx
    have := lrList_lb (run o inp g st).args (by rw [hdc]; exact hd) n
      (run o inp g st).initialLr (by rw [hmn, hdc]; exact hlb) x hx
    rwa [hmn, hdc] at this
  · intro i j hi hj hij hle
    rw [hget] at hle ⊢
    rw [hget]
    have hj' : j = i + (j - i) := by omega
    rw [hj', lrSeq_add]
    exact lrSeq_const (run o inp g st).args (j - i) _ (by rw [hmn]; exact hle)

/-- C7 witness: the amended statement instantiated at a concrete run with
`lr = 1`, `lr_decay_rate = 1/2`, `min_lr = 0`. -/
theorem c7_lr_decay_monotone_witness :
    (0 < inp0.cli.lr_decay_rate ∧ inp0.cli.lr_decay_rate ≤ 1
      ∧ 0 ≤ (run oracle0 inp0 rng0 "T").initialLr
      ∧ inp0.cli.min_lr * inp0.cli.lr_decay_rate ≤ (run oracle0 inp0 rng0 "T").initialLr)
    ∧ ((∀ i (h : i + 1 < (lrTrajOf oracle0 inp0 rng0 "T").length),
      (lrTrajOf oracle0 inp0 rng0 "T").get ⟨i + 1, h⟩
        = (if inp0.cli.min_lr < (lrTrajOf oracle0 inp0 rng0 "T").get ⟨i, Nat.lt_of_succ_lt h⟩
           then (lrTrajOf oracle0 inp0 rng0 "T").get ⟨i, Nat.lt_of_succ_lt h⟩
             * inp0.cli.lr_decay_rate
           else (lrTrajOf oracle0 inp0 rng0 "T").get ⟨i, Nat.lt_of_succ_lt h⟩))
    ∧ (∀ i (h : i + 1 < (lrTrajOf oracle0 inp0 rng0 "T").length),
      (lrTrajOf oracle0 inp0 rng0 "T").get ⟨i + 1, h⟩
        ≤ (lrTrajOf oracle0 inp0 rng0 "T").get ⟨i, Nat.lt_of_succ_lt h⟩)
    ∧ (∀ x ∈ (run oracle0 inp0 rng0 "T").final.lrHist,
        inp0.cli.min_lr * inp0.cli.lr_decay_rate ≤ x)
    ∧ (∀ i j (hi : i < (lrTrajOf oracle0 inp0 rng0 "T").length)
        (hj : j < (lrTrajOf oracle0 inp0 rng0 "T").length), i ≤ j →
        (lrTrajOf oracle0 inp0 rng0 "T").get ⟨i, hi⟩ ≤ inp0.cli.min_lr →
        (lrTrajOf oracle0 inp0 rng0 "T").get ⟨j, hj⟩
          = (lrTrajOf oracle0 inp0 rng0 "T").get ⟨i, hi⟩)) := by
  have h1 : (0:ℚ) < inp0.cli.lr_decay_rate := by norm_num [inp0, cli0]
  have h2 : inp0.cli.lr_decay_rate ≤ 1 := by norm_num [inp0, cli0]
  have h3 : (run oracle0 inp0 rng0 "T").initialLr = 1 := by
    simp [run, runFrom, loopOf, initState, setup, inp0, cli0, applyDatasetKeys, oracle0]
  have h4 : 0 ≤ (run oracle0 inp0 rng0 "T").initialLr := by rw [h3]; norm_num
  have h5 : inp0.cli.min_lr * inp0.cli.lr_decay_rate
      ≤ (run oracle0 inp0 rng0 "T").initialLr := by
    rw [h3]; norm_num [inp0, cli0]
  exact ⟨⟨h1, h2, h4, h5⟩, c7_lr_decay_monotone oracle0 inp0 rng0 "T" h1 h2 h4 h5⟩

/-! ## C8 -/

/-- C8 counterexample: the claim's final clause — a batch loss of exactly zero
discards the running average, resetting it to the next batch's loss — fails:
in the concrete run below the batch losses are `[1, 0, 2]` and the recorded
running losses are `[1, 19/20, 401/400]`; after the zero loss the running
average becomes `0.95 * 1 = 19/20` (not discarded), and after the next batch
it is `401/400`, not that batch's loss `2`. -/
theorem c8_counterexample :
    ¬ (∀ i (h1 : i + 1 < (run oracle0 inp0 rng0 "T").final.rlHist.length)
        (h2 : i + 1 < (run oracle0 inp0 rng0 "T").final.lossHist.length)
        (h0 : i < (run oracle0 inp0 rng0 "T").final.lossHist.length),
        (run oracle0 inp0 rng0 "T").final.lossHist.get ⟨i, h0⟩ = 0 →
        (run oracle0 inp0 rng0 "T").final.rlHist.get ⟨i + 1, h1⟩
          = (run oracle0 inp0 rng0 "T").final.lossHist.get ⟨i + 1, h2⟩) := by
  intro hcl
  have hls : (run oracle0 inp0 rng0 "T").final.lossHist = [1, 0, 2] := by
    simp [run, runFrom, loopOf, initState, setup, runEpochs, runEpoch,
      runBatches, iterNext, iterEvents, batchLoss, lrStep, rlUpdate, epochSaves,
      applyDatasetKeys, oracle0, inp0, cli0, ckpt0, rng0, batchA, batchB, batchC]
  have hrl : (run oracle0 inp0 rng0 "T").final.rlHist = [1, 19/20, 401/400] := by
    simp [run, runFrom, loopOf, initState, setup, runEpochs, runEpoch,
      runBatches, iterNext, iterEvents, batchLoss, lrStep, rlUpdate, epochSaves,
      applyDatasetKeys, oracle0, inp0, cli0, ckpt0, rng0, batchA, batchB, batchC]
    norm_num
  have h1 : 1 + 1 < (run oracle0 inp0 rng0 "T").final.rlHist.length := by
    rw [hrl]; norm_num
  have h2 : 1 + 1 < (run oracle0 inp0 rng0 "T").final.lossHist.length := by
    rw [hls]; norm_num
  have h0 : 1 < (run oracle0 inp0 rng0 "T").final.lossHist.length := by
    rw [hls]; norm_num
  have hz : (run oracle0 inp0 rng0 "T").final.lossHist.get ⟨1, h0⟩ = 0 := by
    rw [List.get_of_eq hls]; rfl
  have hc := hcl 1 h1 h2 h0 hz
  rw [List.get_of_eq hrl, List.get_of_eq hls] at hc
  simp [List.get] at hc
  norm_num at hc

/-- C8 (amended): after each iteration the running loss equals
`0.95 * previous + 0.05 * current` whenever the previous value was strictly
positive, and equals the current batch loss otherwise (the value before the
first iteration being `0.0`); in particular a zero batch loss hit while the
previous running value is positive leaves the running value at
`0.95 * previous` — the running average is reset to the current batch's loss
only when the previous value was not strictly positive. -/
theorem c8_running_loss (o : ModelOracle) (inp : RunInput) (g : RngState) (st : String) :
    (run o inp g st).final.rlHist.length = (run o inp g st).final.lossHist.length
    ∧ (∀ i (h1 : i < (run o inp g st).final.rlHist.length)
        (h2 : i < (run o inp g st).final.lossHist.length),
        (run o inp g st).final.rlHist.get ⟨i, h1⟩
          = (if 0 < ((0:ℚ) :: (run o inp g st).final.rlHist).get ⟨i, Nat.lt_succ_of_lt h1⟩
             then 0.95 * ((0:ℚ) :: (run o inp g st).final.rlHist).get
                    ⟨i, Nat.lt_succ_of_lt h1⟩
               + 0.05 * (run o inp g st).final.lossHist.get ⟨i, h2⟩
             else (run o inp g st).final.lossHist.get ⟨i, h2⟩))
    ∧ (∀ i (h1 : i < (run o inp g st).final.rlHist.length)
        (h2 : i < (run o inp g st).final.lossHist.length),
        0 < ((0:ℚ) :: (run o inp g st).final.rlHist).get ⟨i, Nat.lt_succ_of_lt h1⟩ →
        (run o inp g st).final.lossHist.get ⟨i, h2⟩ = 0 →
        (run o inp g st).final.rlHist.get ⟨i, h1⟩
          = 0.95 * ((0:ℚ) :: (run o inp g st).final.rlHist).get
              ⟨i, Nat.lt_succ_of_lt h1⟩) := by
  have hrl := run_rlHist o inp g st
  have hmain : ∀ i (h1 : i < (run o inp g st).final.rlHist.length)
      (h2 : i < (run o inp g st).final.lossHist.length),
      (run o inp g st).final.rlHist.get ⟨i, h1⟩
        = rlUpdate (((0:ℚ) :: (run o inp g st).final.rlHist).get
            ⟨i, Nat.lt_succ_of_lt h1⟩) ((run o inp g st).final.lossHist.get ⟨i, h2⟩) := by
    intro i h1 h2
    have hcons : ((0:ℚ) :: (run o inp g st).final.rlHist)
        = ((0:ℚ) :: rlList 0 (run o inp g st).final.lossHist) := by rw [hrl]
    have hg0 : ((0:ℚ) :: (run o inp g st).final.rlHist).get ⟨i, Nat.lt_succ_of_lt h1⟩
        = rlFold 0 ((run o inp g st).final.lossHist.take i) := by
      rw [List.get_of_eq hcons]
      exact rlTraj_get (run o inp g st).final.lossHist 0 i _
    rw [hg0, List.get_of_eq hrl]
    exact rlList_get (run o inp g st).final.lossHist 0 i _ h2
  refine ⟨by rw [hrl, rlList_length], ?_, ?_⟩
  · intro i h1 h2
    rw [hmain i h1 h2]
    rfl
  · intro i h1 h2 hpos hz
    rw [hmain i h1 h2, hz]
    unfold rlUpdate
    rw [if_pos hpos]
    ring

/-- C8 witness: the amended running-loss statement instantiated at a concrete
run. -/
theorem c8_running_loss_witness :
    (run oracle0 inp0 rng0 "T").final.rlHist.length
      = (run oracle0 inp0 rng0 "T").final.lossHist.length
    ∧ (∀ i (h1 : i < (run oracle0 inp0 rng0 "T").final.rlHist.length)
        (h2 : i < (run oracle0 inp0 rng0 "T").final.lossHist.length),
        (run oracle0 inp0 rng0 "T").final.rlHist.get ⟨i, h1⟩
          = (if 0 < ((0:ℚ) :: (run oracle0 inp0 rng0 "T").final.rlHist).get
                ⟨i, Nat.lt_succ_of_lt h1⟩
             then 0.95 * ((0:ℚ) :: (run oracle0 inp0 rng0 "T").final.rlHist).get
                    ⟨i, Nat.lt_succ_of_lt h1⟩
               + 0.05 * (run oracle0 inp0 rng0 "T").final.lossHist.get ⟨i, h2⟩
             else (run oracle0 inp0 rng0 "T").final.lossHist.get ⟨i, h2⟩))
    ∧ (∀ i (h1 : i < (run oracle0 inp0 rng0 "T").final.rlHist.length)
        (h2 : i < (run oracle0 inp0 rng0 "T").final.lossHist.length),
        0 < ((0:ℚ) :: (run oracle0 inp0 rng0 "T").final.rlHist).get
          ⟨i, Nat.lt_succ_of_lt h1⟩ →
        (run oracle0 inp0 rng0 "T").final.lossHist.get ⟨i, h2⟩ = 0 →
        (run oracle0 inp0 rng0 "T").final.rlHist.get ⟨i, h1⟩
          = 0.95 * ((0:ℚ) :: (run oracle0 inp0 rng0 "T").final.rlHist).get
              ⟨i, Nat.lt_succ_of_lt h1⟩) :=
  c8_running_loss oracle0 inp0 rng0 "T"

/-! ## C9 -/

/-- A command line that requests loading a checkpoint. -/
def cli9 : Args := { cli0 with load_path := "ck" }

/-- Run input that loads `ckpt0`, whose saved `vocab_size` is `0` while the
dataset provides `vocab_size = 7`. -/
def inp9 : RunInput := ⟨cli9, ckpt0⟩

/-- C9 counterexample: the claim that, of the loaded model arguments, only
`gpuid` and `batch_size` are overwritten and every other loaded argument is
left unchanged is false — in the concrete loading run below the loaded
`vocab_size` is `0`, but the script overwrites it (line 97 of `train.py`)
with the dataset's `vocab_size = 7`. -/
theorem c9_counterexample :
    (run oracle0 inp9 rng0 "T").modelArgs.vocab_size = 7
    ∧ inp9.ckpt.encoderArgs.vocab_size = 0
    ∧ ¬ ((run oracle0 inp9 rng0 "T").modelArgs.vocab_size
          = inp9.ckpt.encoderArgs.vocab_size) := by
  have h1 : (run oracle0 inp9 rng0 "T").modelArgs.vocab_size = 7 := by
    simp [run, runFrom, setup, applyDatasetKeys, oracle0, inp9, cli9, cli0, ckpt0]
  have h2 : inp9.ckpt.encoderArgs.vocab_size = 0 := by
    simp [inp9, ckpt0, cli0]
  exact ⟨h1, h2, by rw [h1, h2]; omega⟩

/-- C9 (amended): when a non-empty `-load_path` is given, the model arguments
used for training are taken from the loaded checkpoint and the optimizer's
initial learning rate is the checkpoint's saved `lr` (not the `-lr` flag);
of the loaded arguments, `gpuid` and `batch_size` are overwritten with the
command-line values, the five dataset-derived attributes and the `training`
flag are overwritten from the freshly constructed dataset, and every other
loaded model argument is left unchanged. -/
theorem c9_load_arg_merge (o : ModelOracle) (inp : RunInput) (g : RngState) (st : String)
    (hl : inp.cli.load_path ≠ "") :
    (run o inp g st).initialLr = inp.ckpt.lr
    ∧ (run o inp g st).modelArgs.gpuid = inp.cli.gpuid
    ∧ (run o inp g st).modelArgs.batch_size = inp.cli.batch_size
    ∧ (run o inp g st).modelArgs.lr = inp.ckpt.encoderArgs.lr
    ∧ (run o inp g st).modelArgs.lr_decay_rate = inp.ckpt.encoderArgs.lr_decay_rate
    ∧ (run o inp g st).modelArgs.min_lr = inp.ckpt.encoderArgs.min_lr
    ∧ (run o inp g st).modelArgs.weight_init = inp.ckpt.encoderArgs.weight_init
    ∧ (run o inp g st).modelArgs.load_path = inp.ckpt.encoderArgs.load_path
    ∧ (run o inp g st).modelArgs.save_path = inp.ckpt.encoderArgs.save_path
    ∧ (run o inp g st).modelArgs.save_step = inp.ckpt.encoderArgs.save_step
    ∧ (run o inp g st).modelArgs.img_norm = inp.ckpt.encoderArgs.img_norm
    ∧ (run o inp g st).modelArgs.concat_history = inp.ckpt.encoderArgs.concat_history
    ∧ (run o inp g st).modelArgs.num_epochs = inp.ckpt.encoderArgs.num_epochs
    ∧ (run o inp g st).modelArgs.iter_per_epoch = inp.ckpt.encoderArgs.iter_per_epoch
    ∧ (run o inp g st).modelArgs.other = inp.ckpt.encoderArgs.other
    ∧ (run o inp g st).modelArgs.num_data_points = (run o inp g st).ds.num_data_points
    ∧ (run o inp g st).modelArgs.vocab_size = (run o inp g st).ds.vocab_size
    ∧ (run o inp g st).modelArgs.max_ques_count = (run o inp g st).ds.max_ques_count
    ∧ (run o inp g st).modelArgs.max_ques_len = (run o inp g st).ds.max_ques_len
    ∧ (run o inp g st).modelArgs.max_ans_len = (run o inp g st).ds.max_ans_len
    ∧ (run o inp g st).modelArgs.training = true := by
  have hm : (run o inp g st).modelArgs
      = applyDatasetKeys (run o inp g st).ds
        { inp.ckpt.encoderArgs with
          gpuid := inp.cli.gpuid
          batch_size := inp.cli.batch_size } := setup_modelArgs_load o inp g st hl
  have hlr : (run o inp g st).initialLr = inp.ckpt.lr := setup_args_lr_load o inp g st hl
  rw [hm]
  refine ⟨hlr, ?_, ?_, ?_, ?_, ?_, ?_, ?_, ?_, ?_, ?_, ?_, ?_, ?_, ?_, ?_, ?_, ?_, ?_,
    ?_, ?_⟩ <;> simp [applyDatasetKeys]

/-- C9 witness: the amended argument-merge statement instantiated at a
concrete loading run. -/
theorem c9_load_arg_merge_witness :
    inp9.cli.load_path ≠ ""
    ∧ ((run oracle0 inp9 rng0 "T").initialLr = inp9.ckpt.lr
    ∧ (run oracle0 inp9 rng0 "T").modelArgs.gpuid = inp9.cli.gpuid
    ∧ (run oracle0 inp9 rng0 "T").modelArgs.batch_size = inp9.cli.batch_size
    ∧ (run oracle0 inp9 rng0 "T").modelArgs.lr = inp9.ckpt.encoderArgs.lr
    ∧ (run oracle0 inp9 rng0 "T").modelArgs.lr_decay_rate
        = inp9.ckpt.encoderArgs.lr_decay_rate
    ∧ (run oracle0 inp9 rng0 "T").modelArgs.min_lr = inp9.ckpt.encoderArgs.min_lr
    ∧ (run oracle0 inp9 rng0 "T").modelArgs.weight_init = inp9.ckpt.encoderArgs.weight_init
    ∧ (run oracle0 inp9 rng0 "T").modelArgs.load_path = inp9.ckpt.encoderArgs.load_path
    ∧ (run oracle0 inp9 rng0 "T").modelArgs.save_path = inp9.ckpt.encoderArgs.save_path
    ∧ (run oracle0 inp9 rng0 "T").modelArgs.save_step = inp9.ckpt.encoderArgs.save_step
    ∧ (run oracle0 inp9 rng0 "T").modelArgs.img_norm = inp9.ckpt.encoderArgs.img_norm
    ∧ (run oracle0 inp9 rng0 "T").modelArgs.concat_history
        = inp9.ckpt.encoderArgs.concat_history
    ∧ (run oracle0 inp9 rng0 "T").modelArgs.num_epochs = inp9.ckpt.encoderArgs.num_epochs
    ∧ (run oracle0 inp9 rng0 "T").modelArgs.iter_per_epoch
        = inp9.ckpt.encoderArgs.iter_per_epoch
    ∧ (run oracle0 inp9 rng0 "T").modelArgs.other = inp9.ckpt.encoderArgs.other
    ∧ (run oracle0 inp9 rng0 "T").modelArgs.num_data_points
        = (run oracle0 inp9 rng0 "T").ds.num_data_points
    ∧ (run oracle0 inp9 rng0 "T").modelArgs.vocab_size
        = (run oracle0 inp9 rng0 "T").ds.vocab_size
    ∧ (run oracle0 inp9 rng0 "T").modelArgs.max_ques_count
        = (run oracle0 inp9 rng0 "T").ds.max_ques_count
    ∧ (run oracle0 inp9 rng0 "T").modelArgs.max_ques_len
        = (run oracle0 inp9 rng0 "T").ds.max_ques_len
    ∧ (run oracle0 inp9 rng0 "T").modelArgs.max_ans_len
        = (run oracle0 inp9 rng0 "T").ds.max_ans_len
    ∧ (run oracle0 inp9 rng0 "T").modelArgs.training = true) := by
  have hl : inp9.cli.load_path ≠ "" := by simp [inp9, cli9]
  exact ⟨hl, c9_load_arg_merge oracle0 inp9 rng0 "T" hl⟩

end VisDial
